import Mathlib

/-!
Verification development for the scim2-tester attribute addressing and
object-synthesis subsystem (src/scim2_tester/urns.py, filling.py, utils.py).

The Python code is shallowly embedded:
* schema models (the scim2-models classes the code introspects) become an
  explicit environment of `ModelDef` records;
* live pydantic instances become the inductive `Value` type, with `getattr` /
  `setattr` as association-list lookup / update (pydantic materialises every
  declared field on an instance, so a declared field is always present and
  attribute assignment is modelled as update-or-insert);
* Python functions that can raise return `Except String`; a raised exception
  is `Except.error` with a message naming the Python exception;
* `random.randint(0, n)` becomes an explicit function `rand : Nat → Nat`
  constrained by `∀ n, rand n ≤ n` in the theorems that need it;
* the external scim2-models helpers `_find_field_name`, `_to_camel`,
  `get_field_root_type`, `get_field_annotation`, `get_field_multiplicity`,
  `get_extension_models` and `get_attribute_urn` are modelled over the
  environment following their documented behaviour: `_find_field_name`
  resolves a camelCase attribute name to the snake_case field name and yields
  `none` when the inspected type declares no matching field (in particular a
  primitive or list type, which declares no fields at all);
* Lean string pattern helpers are reimplemented structurally over `List Char`
  so that every definition evaluates by kernel reduction.
-/

namespace ScimTester

/-! ## String helpers (Python str.split, startswith, removeprefix, rsplit) -/

/-- Split a character list on a separator character, Python `str.split(sep)`
semantics for a one-character separator: the result is always non-empty and
splitting the empty string yields one empty piece. -/
def splitChar (c : Char) : List Char → List (List Char)
  | [] => [[]]
  | x :: xs =>
    let r := splitChar c xs
    if x == c then [] :: r
    else
      match r with
      | h :: t => (x :: h) :: t
      | [] => [[x]]

/-- Python `urn.split(sep)` for a one-character separator. -/
def strSplitOn (s : String) (c : Char) : List String :=
  (splitChar c s.data).map String.mk

/-- Python `c in s` for a single character. -/
def strContainsCh (s : String) (c : Char) : Bool := s.data.contains c

/-- Python `s.startswith(p)`. -/
def strStarts (s p : String) : Bool := p.data.isPrefixOf s.data

/-- Python `s.removeprefix(p)`. -/
def strDropPre (s p : String) : String :=
  if strStarts s p then String.mk (s.data.drop p.data.length) else s

/-- Python `str.capitalize()` on one word. -/
def capWord (s : String) : String :=
  match s.data with
  | [] => s
  | ch :: cs => String.mk (ch.toUpper :: cs.map Char.toLower)

/-- Modelled scim2-models helper `_to_camel`: snake_case to camelCase. -/
def toCamel (s : String) : String :=
  match strSplitOn s '_' with
  | [] => s
  | w :: ws => w ++ String.join (ws.map capWord)

/-- Python `value.rsplit(sep, 1)[-1]` for a one-character separator: the part
of the string after its last occurrence of the separator, the whole string
when the separator does not occur. -/
def lastSegmentStr (s : String) (c : Char) : String :=
  String.mk ((splitChar c s.data).getLastD s.data)

/-! ## Schema model (the scim2-models classes the tester introspects)

A `ModelDef` describes one pydantic model class: a SCIM resource, a schema
extension, or a complex attribute.  `schemaUrn` models
`model.model_fields["schemas"].default[0]` (present exactly on resources and
extensions), `extensions` models `Resource.get_extension_models()` as an
ordered mapping from extension schema URN to extension model name, and an
extension is attached to its resource as a field named after the extension
model (that is how `_find_field_name(model, extension_model.__name__)`
locates it in the source). -/

inductive Required where
  | true
  | false
deriving DecidableEq, Repr

inductive Mutability where
  | readOnly
  | readWrite
  | immutable
  | writeOnly
deriving DecidableEq, Repr

inductive PrimKind where
  | pstr
  | pint
  | pbool
deriving DecidableEq, Repr

/-- The root type of a field, `Resource.get_field_root_type` already stripped
of `Optional` and `list` wrappers as the source helper does. -/
inductive RootType where
  | prim (k : PrimKind)
  | complexOf (modelName : String)
  | extensionOf (modelName : String)
deriving DecidableEq, Repr

structure FieldDef where
  name : String
  multiValued : Bool
  required : Option Required
  mutability : Option Mutability
  rootType : RootType
deriving DecidableEq, Repr

inductive MKind where
  | resource
  | extension
  | complex
deriving DecidableEq, Repr

structure ModelDef where
  name : String
  kind : MKind
  schemaUrn : Option String
  fields : List FieldDef
  extensions : List (String × String)
deriving DecidableEq, Repr

def Env : Type := List ModelDef

/-- Look a model class up by name. -/
def findModel (env : Env) (n : String) : Option ModelDef :=
  env.find? (fun md => md.name == n)

/-- Modelled scim2-models helper `_find_field_name`: resolve a camelCase
attribute name against a model, returning the snake_case field name, `none`
when no declared field matches. -/
def findFieldNameM (md : ModelDef) (attr : String) : Option String :=
  (md.fields.find? (fun f => toCamel f.name == attr || f.name == attr)).map
    (fun f => f.name)

def findFieldDef (md : ModelDef) (fname : String) : Option FieldDef :=
  md.fields.find? (fun f => f.name == fname)

/-- A type-level traversal position: a model class, or a primitive type such
as `str`, which declares no fields. -/
inductive TypeRef where
  | tmodel (n : String)
  | tprim (k : PrimKind)
deriving DecidableEq, Repr

def rootTypeRef : RootType → TypeRef
  | RootType.prim k => TypeRef.tprim k
  | RootType.complexOf m => TypeRef.tmodel m
  | RootType.extensionOf m => TypeRef.tmodel m

/-- Field lookup on a type-level position (`_find_field_name(current_model, part)`). -/
def findFieldNameT (env : Env) (t : TypeRef) (attr : String) : Option String :=
  match t with
  | TypeRef.tmodel n => (findModel env n).bind (fun md => findFieldNameM md attr)
  | TypeRef.tprim _ => none

/-- Model-level `current_model.get_field_root_type(field_name)`. -/
def fieldRootTypeT (env : Env) (t : TypeRef) (fname : String) : Option RootType :=
  match t with
  | TypeRef.tmodel n =>
    (findModel env n).bind (fun md => (findFieldDef md fname).map (fun f => f.rootType))
  | TypeRef.tprim _ => none

/-! ## urns.py: get_target_model_by_urn -/

/-- The schema-prefix handling of `get_target_model_by_urn`
(urns.py lines 89-106): strip the model's own schema URN, else fold over the
registered extensions, rewriting an exact extension-URN match to the
extension model's class name and entering an extension on a prefix match.
The Python loop has no `break`, so later extensions are compared against the
already rewritten state, which the fold reproduces. -/
def stripExtensionsT : List (String × String) → TypeRef × String → TypeRef × String
  | [], st => st
  | (extSchema, extName) :: rest, (t, urn) =>
    if urn == extSchema then
      stripExtensionsT rest (t, extName)
    else if strStarts urn extSchema then
      stripExtensionsT rest
        (TypeRef.tmodel extName, strDropPre (strDropPre urn extSchema) ":")
    else
      stripExtensionsT rest (t, urn)

def stripUrnSchemaT (env : Env) (t : TypeRef) (urn : String) : TypeRef × String :=
  if strContainsCh urn ':' then
    match t with
    | TypeRef.tmodel n =>
      match findModel env n with
      | some md =>
        if md.kind == MKind.resource || md.kind == MKind.extension then
          let mdSchema := md.schemaUrn.getD ""
          if strStarts urn mdSchema then
            (t, strDropPre (strDropPre urn mdSchema) ":")
          else if md.kind == MKind.resource then
            stripExtensionsT md.extensions (t, urn)
          else (t, urn)
        else (t, urn)
      | none => (t, urn)
    | TypeRef.tprim _ => (t, urn)
  else (t, urn)

/-- The intermediate-hop loop of `get_target_model_by_urn`
(`for part in parts[:-1]`): resolve each hop to a field and move to the
field's root type, failing as soon as a hop does not resolve. -/
def walkT (env : Env) : TypeRef → List String → Option TypeRef
  | t, [] => some t
  | t, p :: ps =>
    match findFieldNameT env t p with
    | none => none
    | some f =>
      match fieldRootTypeT env t f with
      | none => none
      | some rt => walkT env (rootTypeRef rt) ps

/-- urns.py `get_target_model_by_urn`: resolve a URN path against a schema.
A result is `(owning type, field name lookup result)`; note the source has
no `None` check after resolving the *last* segment of a dotted path, so the
second component can be `none` there. -/
def getTargetModelByUrn (env : Env) (t : TypeRef) (urn : String) :
    Option (TypeRef × Option String) :=
  let s := stripUrnSchemaT env t urn
  let t' := s.1
  let u := s.2
  if strContainsCh u '.' then
    let parts := strSplitOn u '.'
    match walkT env t' parts.dropLast with
    | none => none
    | some tLast => some (tLast, findFieldNameT env tLast (parts.getLastD ""))
  else
    match findFieldNameT env t' u with
    | none => none
    | some f => some (t', some f)

/-! ## urns.py: iter_urns / iter_all_urns -/

/-- Python membership test `field_required not in required` where the
annotation may be missing (`None` is never a member of the filter list). -/
def passesReq (filter : Option (List Required)) (ann : Option Required) : Bool :=
  match filter with
  | none => Bool.true
  | some l =>
    match ann with
    | some r => l.contains r
    | none => Bool.false

def passesMut (filter : Option (List Mutability)) (ann : Option Mutability) : Bool :=
  match filter with
  | none => Bool.true
  | some l =>
    match ann with
    | some m => l.contains m
    | none => Bool.false

/-- The URN yielded for one field of `iter_urns` (urns.py lines 40-45):
an extension-typed field yields the extension's schema URN; a field of an
extension model yields `model().get_attribute_urn(field_name)`, which is the
extension schema URN qualified attribute name; otherwise the camelCase name. -/
def urnForField (env : Env) (md : ModelDef) (f : FieldDef) : String :=
  match f.rootType with
  | RootType.extensionOf m =>
    ((findModel env m).bind (fun emd => emd.schemaUrn)).getD ""
  | _ =>
    if md.kind == MKind.extension then
      md.schemaUrn.getD "" ++ ":" ++ toCamel f.name
    else
      toCamel f.name

/-- The three `continue` guards at the top of the `iter_urns` field loop
(urns.py lines 23-36): skip the identity fields and apply the optional
required / mutability filters — to the top-level field only. -/
def fieldEligible (req : Option (List Required)) (mutf : Option (List Mutability))
    (f : FieldDef) : Bool :=
  !(f.name == "meta" || f.name == "id" || f.name == "schemas") &&
    passesReq req f.required && passesMut mutf f.mutability

/-- The URNs one eligible field contributes (urns.py lines 38-53): its own
URN, followed — when the field is complex and `includeSub` is set — by one
sub-URN per field of the sub-model, with no filtering of the sub-fields. -/
def fieldUrns (env : Env) (md : ModelDef) (includeSub : Bool) (f : FieldDef) :
    List String :=
  let urn := urnForField env md f
  let subs :=
    match f.rootType with
    | RootType.complexOf m =>
      if includeSub then
        match findModel env m with
        | some smd => smd.fields.map (fun sf => urn ++ "." ++ toCamel sf.name)
        | none => []
      else []
    | _ => []
  urn :: subs

def iterUrnsGo (env : Env) (md : ModelDef) (req : Option (List Required))
    (mutf : Option (List Mutability)) (includeSub : Bool) :
    List FieldDef → List String
  | [] => []
  | f :: rest =>
    (if fieldEligible req mutf f then fieldUrns env md includeSub f else []) ++
      iterUrnsGo env md req mutf includeSub rest

/-- urns.py `iter_urns`: enumerate attribute URNs of one model, skipping the
identity fields, applying the required / mutability filters to each top-level
field, and — when `includeSub` is set — yielding every sub-attribute of a
complex field with *no* filtering of its own (the source sub-loop at lines
50-53 consults no annotations). -/
def iterUrns (env : Env) (md : ModelDef) (req : Option (List Required))
    (mutf : Option (List Mutability)) (includeSub : Bool) : List String :=
  iterUrnsGo env md req mutf includeSub md.fields

/-- The extension loop of `iter_all_urns` (urns.py lines 73-83). -/
def extUrnsGo (env : Env) (req : Option (List Required))
    (mutf : Option (List Mutability)) (includeSub : Bool) :
    List (String × String) → List (String × String)
  | [] => []
  | ext :: rest =>
    (match findModel env ext.2 with
     | some emd => (iterUrns env emd req mutf includeSub).map (fun u => (u, ext.2))
     | none => []) ++ extUrnsGo env req mutf includeSub rest

/-- urns.py `iter_all_urns`: base-model URNs first, then each registered
extension's URNs, each paired with the model that owns it. -/
def iterAllUrns (env : Env) (md : ModelDef) (req : Option (List Required))
    (mutf : Option (List Mutability)) (includeSub : Bool) : List (String × String) :=
  (iterUrns env md req mutf includeSub).map (fun u => (u, md.name)) ++
    (if md.kind == MKind.resource then extUrnsGo env req mutf includeSub md.extensions
     else [])

/-! ## Live instances

A pydantic instance is a `Value.vobj` carrying its model-class name and an
association list with one entry per declared field (pydantic materialises
every declared field, defaulting to `None`, embedded as `Value.vnull`). -/

inductive Value where
  | vnull
  | vstr (s : String)
  | vint (n : Int)
  | vbool (b : Bool)
  | vlist (items : List Value)
  | vobj (modelName : String) (fields : List (String × Value))

/-- Python `x is None`. -/
def isVNull : Value → Bool
  | Value.vnull => Bool.true
  | _ => Bool.false

def lookupStr : List (String × Value) → String → Option Value
  | [], _ => none
  | (k, w) :: rest, f => if k == f then some w else lookupStr rest f

def updateStr : List (String × Value) → String → Value → List (String × Value)
  | [], f, v => [(f, v)]
  | (k, w) :: rest, f, v =>
    if k == f then (f, v) :: rest else (k, w) :: updateStr rest f v

/-- Python `getattr(obj, field_name)`; a declared field is always present on
a pydantic instance, so a missing key reads as `None`. -/
def getattrV (obj : Value) (f : String) : Value :=
  match obj with
  | Value.vobj _ flds => (lookupStr flds f).getD Value.vnull
  | _ => Value.vnull

/-- Python `setattr(obj, field_name, value)` on a model instance. -/
def setattrV (obj : Value) (f : String) (v : Value) : Value :=
  match obj with
  | Value.vobj m flds => Value.vobj m (updateStr flds f v)
  | other => other

/-- Python `hasattr(obj, name)`: only model instances expose model fields. -/
def hasattrV (obj : Value) (f : String) : Bool :=
  match obj with
  | Value.vobj _ flds => (lookupStr flds f).isSome
  | _ => Bool.false

/-- Python truthiness (`if not attr_value`, `if getattr(item, "ref", None)`). -/
def truthyV : Value → Bool
  | Value.vnull => Bool.false
  | Value.vstr s => !s.data.isEmpty
  | Value.vint n => n != 0
  | Value.vbool b => b
  | Value.vlist items => !items.isEmpty
  | Value.vobj _ _ => Bool.true

def isVList : Value → Bool
  | Value.vlist _ => Bool.true
  | _ => Bool.false

def modelOfV : Value → Option String
  | Value.vobj m _ => some m
  | _ => none

/-- Instance-level `_find_field_name(type(current_obj), part)`: the type of a
non-model value (a `list`, `str`, …) declares no fields. -/
def findFieldNameV (env : Env) (obj : Value) (attr : String) : Option String :=
  match obj with
  | Value.vobj m _ => (findModel env m).bind (fun md => findFieldNameM md attr)
  | _ => none

/-- Instance-level `type(current_obj).get_field_root_type(field_name)`. -/
def fieldRootTypeV (env : Env) (obj : Value) (fname : String) : Option RootType :=
  match obj with
  | Value.vobj m _ =>
    (findModel env m).bind (fun md => (findFieldDef md fname).map (fun f => f.rootType))
  | _ => none

/-- Instance-level `obj.get_field_multiplicity(field_name)`. -/
def fieldMultiValuedV (env : Env) (obj : Value) (fname : String) : Bool :=
  match obj with
  | Value.vobj m _ =>
    (((findModel env m).bind (fun md => findFieldDef md fname)).map
      (fun f => f.multiValued)).getD Bool.false
  | _ => Bool.false

/-- Python `field_type()`: the default instance a class call builds — empty
string / zero for primitives, an instance with every field `None` for model
classes; `none` only in the modelling artifact where the named class is
absent from the environment (impossible in Python, where the class object is
at hand). -/
def defaultInstance (md : ModelDef) : Value :=
  Value.vobj md.name (md.fields.map (fun f => (f.name, Value.vnull)))

def defaultOfRootType (env : Env) : RootType → Option Value
  | RootType.prim PrimKind.pstr => some (Value.vstr "")
  | RootType.prim PrimKind.pint => some (Value.vint 0)
  | RootType.prim PrimKind.pbool => some (Value.vbool Bool.false)
  | RootType.complexOf m => (findModel env m).map defaultInstance
  | RootType.extensionOf m => (findModel env m).map defaultInstance

/-! ## urns.py: get_value_by_urn / set_value_by_urn -/

/-- The dotted branch of `get_value_by_urn` (urns.py lines 186-205): walk the
intermediate segments over the live instance, answering `None` for an
unresolved hop or an unset intermediate, then read the final attribute. -/
def getDotted (env : Env) : Value → List String → Value
  | _, [] => Value.vnull
  | obj, [last] =>
    match findFieldNameV env obj last with
    | none => Value.vnull
    | some f => getattrV obj f
  | obj, p :: q :: rest =>
    match findFieldNameV env obj p with
    | none => Value.vnull
    | some f =>
      let sub := getattrV obj f
      if isVNull sub then Value.vnull
      else getDotted env sub (q :: rest)

/-- The colon-free tail of `get_value_by_urn` (dotted or simple lookup). -/
def getPlain (env : Env) (obj : Value) (urn : String) : Value :=
  if strContainsCh urn '.' then getDotted env obj (strSplitOn urn '.')
  else
    match findFieldNameV env obj urn with
    | none => Value.vnull
    | some f => getattrV obj f

/-- One step of `get_value_by_urn`'s extension loop: an exact schema match
rewrites the urn to the extension model's class name and keeps looping; a
prefix match descends into the extension instance. -/
inductive ExtOutcome where
  | fall (urn : String)
  | enter (extName : String) (subUrn : String)
deriving DecidableEq, Repr

def extLoopGet : List (String × String) → String → ExtOutcome
  | [], urn => ExtOutcome.fall urn
  | (extSchema, extName) :: rest, urn =>
    if urn == extSchema then extLoopGet rest extName
    else if strStarts urn extSchema then
      ExtOutcome.enter extName (strDropPre (strDropPre urn extSchema) ":")
    else extLoopGet rest urn

/-- urns.py `get_value_by_urn`, with an explicit recursion budget: the only
recursive call descends into an extension instance after stripping that
extension's (non-empty) schema URN from the path, so a budget of one more
than the path length always suffices.  `Except.error` models a raised Python
exception (the `KeyError` of reading `model_fields["schemas"]` on a model
that has no such field). -/
def getValueByUrnF (env : Env) : Nat → Value → String → Except String Value
  | 0, _, _ => Except.error "recursion limit exceeded"
  | Nat.succ fuel, obj, urn =>
    if strContainsCh urn ':' then
      match obj with
      | Value.vobj m _ =>
        match findModel env m with
        | none => Except.error "unknown model class"
        | some md =>
          match md.schemaUrn with
          | none => Except.error "KeyError: schemas"
          | some mdSchema =>
            if (md.kind == MKind.resource || md.kind == MKind.extension)
                && strStarts urn mdSchema then
              Except.ok (getPlain env obj (strDropPre (strDropPre urn mdSchema) ":"))
            else if md.kind == MKind.resource then
              match extLoopGet md.extensions urn with
              | ExtOutcome.fall u => Except.ok (getPlain env obj u)
              | ExtOutcome.enter extName subUrn =>
                let extObj := getattrV obj extName
                if isVNull extObj then Except.ok Value.vnull
                else getValueByUrnF env fuel extObj subUrn
            else Except.ok (getPlain env obj urn)
      | _ => Except.error "AttributeError: model_fields"
    else Except.ok (getPlain env obj urn)

def getValueByUrn (env : Env) (obj : Value) (urn : String) : Except String Value :=
  getValueByUrnF env (urn.data.length + 1) obj urn

/-- The dotted branch of `set_value_by_urn` (urns.py lines 232-252): walk the
intermediate segments, creating an unset intermediate with the field root
type's default constructor, silently returning on an unresolved hop or on a
multi-valued (list) intermediate; the final segment is assigned with *no*
check that it resolved, so `setattr(obj, None, value)` — a `TypeError` — is
reached when it did not. -/
def setDotted (env : Env) : Value → List String → Value → Except String Value
  | obj, [], _ => Except.ok obj
  | obj, [last], v =>
    match findFieldNameV env obj last with
    | none => Except.error "TypeError: attribute name must be string"
    | some f => Except.ok (setattrV obj f v)
  | obj, p :: q :: rest, v =>
    match findFieldNameV env obj p with
    | none => Except.ok obj
    | some f =>
      let sub := getattrV obj f
      if isVNull sub then
        match fieldRootTypeV env obj f with
        | none => Except.error "unknown field root type"
        | some rt =>
          match defaultOfRootType env rt with
          | none => Except.error "unknown model class"
          | some sub0 =>
            (setDotted env sub0 (q :: rest) v).map (fun s => setattrV obj f s)
      else if isVList sub then Except.ok obj
      else (setDotted env sub (q :: rest) v).map (fun s => setattrV obj f s)

/-- The colon-free tail of `set_value_by_urn` (urns.py lines 232-264): dotted
assignment, or simple assignment guarded by `if field_name:` and wrapping a
single non-`None` value of a multi-valued field into a one-element list. -/
def setPlain (env : Env) (obj : Value) (urn : String) (v : Value) :
    Except String Value :=
  if strContainsCh urn '.' then setDotted env obj (strSplitOn urn '.') v
  else
    match findFieldNameV env obj urn with
    | none => Except.ok obj
    | some f =>
      let v' :=
        if fieldMultiValuedV env obj f && !isVList v && !isVNull v then
          Value.vlist [v]
        else v
      Except.ok (setattrV obj f v')

/-- One step of `set_value_by_urn`'s extension loop: an exact schema match
assigns the whole extension field and returns; a prefix match descends. -/
inductive ExtOutcomeSet where
  | fall (urn : String)
  | assign (extName : String)
  | enter (extName : String) (subUrn : String)
deriving DecidableEq, Repr

def extLoopSet : List (String × String) → String → ExtOutcomeSet
  | [], urn => ExtOutcomeSet.fall urn
  | (extSchema, extName) :: rest, urn =>
    if urn == extSchema then ExtOutcomeSet.assign extName
    else if strStarts urn extSchema then
      ExtOutcomeSet.enter extName (strDropPre (strDropPre urn extSchema) ":")
    else extLoopSet rest urn

/-- urns.py `set_value_by_urn`, with the same recursion budget discipline as
`getValueByUrnF`.  The returned value is the mutated instance; `Except.error`
models a raised Python exception, losing the partial in-place mutations
performed before the raise, which no claim depends on. -/
def setValueByUrnF (env : Env) : Nat → Value → String → Value → Except String Value
  | 0, _, _, _ => Except.error "recursion limit exceeded"
  | Nat.succ fuel, obj, urn, v =>
    if strContainsCh urn ':' then
      match obj with
      | Value.vobj m _ =>
        match findModel env m with
        | none => Except.error "unknown model class"
        | some md =>
          match md.schemaUrn with
          | none => Except.error "KeyError: schemas"
          | some mdSchema =>
            if (md.kind == MKind.resource || md.kind == MKind.extension)
                && strStarts urn mdSchema then
              setPlain env obj (strDropPre (strDropPre urn mdSchema) ":") v
            else if md.kind == MKind.resource then
              match extLoopSet md.extensions urn with
              | ExtOutcomeSet.fall u => setPlain env obj u v
              | ExtOutcomeSet.assign extName => Except.ok (setattrV obj extName v)
              | ExtOutcomeSet.enter extName subUrn =>
                let cur := getattrV obj extName
                if isVNull cur then
                  match findModel env extName with
                  | none => Except.error "unknown model class"
                  | some emd =>
                    (setValueByUrnF env fuel (defaultInstance emd) subUrn v).map
                      (fun s => setattrV obj extName s)
                else
                  (setValueByUrnF env fuel cur subUrn v).map
                    (fun s => setattrV obj extName s)
            else setPlain env obj urn v
      | _ => Except.error "AttributeError: model_fields"
    else setPlain env obj urn v

def setValueByUrn (env : Env) (obj : Value) (urn : String) (v : Value) :
    Except String Value :=
  setValueByUrnF env (urn.data.length + 1) obj urn v

/-! ## filling.py: fix_reference_values_in_value -/

/-- The per-item body of `fix_reference_values_in_value` (filling.py lines
216-229): when the item carries both a `ref` and a `value` attribute and the
`ref` is truthy, overwrite `value` with the part of `ref` after its last
slash.  A truthy non-string `ref` has no `.rsplit` and raises. -/
def fixRefOne (item : Value) : Except String Value :=
  if hasattrV item "ref" && hasattrV item "value" && truthyV (getattrV item "ref") then
    match getattrV item "ref" with
    | Value.vstr s =>
      Except.ok (setattrV item "value" (Value.vstr (lastSegmentStr s '/')))
    | _ => Except.error "AttributeError: rsplit"
  else Except.ok item

/-- The list loop of `fix_reference_values_in_value` (filling.py lines
216-223), rebuilding the list with each element fixed in order. -/
def fixRefList : List Value → Except String (List Value)
  | [] => Except.ok []
  | item :: rest =>
    match fixRefOne item with
    | Except.error e => Except.error e
    | Except.ok it => (fixRefList rest).map (fun r => it :: r)

/-- filling.py `fix_reference_values_in_value`: apply the back-fill to every
element of a list value, or to a single value. -/
def fixReferenceValuesInValue (value : Value) : Except String Value :=
  match value with
  | Value.vlist items => (fixRefList items).map Value.vlist
  | v => fixRefOne v

/-! ## filling.py: fix_primary_attributes and fill_with_random_values -/

/-- The inner loop of `fix_primary_attributes` (filling.py lines 254-255):
assign `item.primary = (i == primary_index)` to every element, counting from
`i`; assigning an attribute on a non-model element raises. -/
def setPrimaryFlags (idx : Nat) : List Value → Nat → Except String (List Value)
  | [], _ => Except.ok []
  | item :: rest, i =>
    match item with
    | Value.vobj mn flds =>
      (setPrimaryFlags idx rest (i + 1)).map
        (fun tail =>
          Value.vobj mn (updateStr flds "primary" (Value.vbool (decide (i = idx)))) ::
            tail)
    | _ => Except.error "AttributeError: primary"

/-- The field loop of `fix_primary_attributes` (filling.py lines 244-255):
for every declared field whose current value is a non-empty list whose first
element exposes a `primary` attribute, pick `primary_index = rand (len - 1)`
(Python `random.randint(0, len(attr_value) - 1)`) and set every element's
`primary` flag accordingly. -/
def fixPrimaryGo (rand : Nat → Nat) : Value → List FieldDef → Except String Value
  | obj, [] => Except.ok obj
  | obj, f :: rest =>
    match getattrV obj f.name with
    | Value.vlist (x :: xs) =>
      if hasattrV x "primary" then
        let idx := rand ((x :: xs).length - 1)
        match setPrimaryFlags idx (x :: xs) 0 with
        | Except.error e => Except.error e
        | Except.ok items' =>
          fixPrimaryGo rand (setattrV obj f.name (Value.vlist items')) rest
      else fixPrimaryGo rand obj rest
    | _ => fixPrimaryGo rand obj rest

/-- filling.py `fix_primary_attributes`: iterate `type(obj).model_fields`.
An object whose class is absent from the environment has no field list to
walk (unreachable from Python, where the class is always at hand). -/
def fixPrimaryAttributes (rand : Nat → Nat) (env : Env) (obj : Value) :
    Except String Value :=
  match obj with
  | Value.vobj m _ =>
    match findModel env m with
    | none => Except.ok obj
    | some md => fixPrimaryGo rand obj md.fields
  | v => Except.ok v

/-- The per-URN loop of `fill_with_random_values` (filling.py lines 197-202):
`gen` abstracts `generate_random_value`, whose output depends on the random
generator and on the network client; a `none` result (`value is None`) leaves
the attribute unset. -/
def fillGo (env : Env) (gen : String → Option Value) :
    Value → List String → Except String Value
  | obj, [] => Except.ok obj
  | obj, u :: rest =>
    match gen u with
    | none => fillGo env gen obj rest
    | some v =>
      match setValueByUrn env obj u v with
      | Except.error e => Except.error e
      | Except.ok obj' => fillGo env gen obj' rest

/-- filling.py `fill_with_random_values` with an explicit URN list: fill the
listed attributes, then run the `fix_primary_attributes` post-pass and
return the object. -/
def fillWithRandomValues (env : Env) (gen : String → Option Value)
    (rand : Nat → Nat) (obj : Value) (urns : List String) : Except String Value :=
  match fillGo env gen obj urns with
  | Except.error e => Except.error e
  | Except.ok obj' => fixPrimaryAttributes rand env obj'

/-- filling.py `fill_with_random_values` when called with `urns=None`: the
URN list is computed by `iter_all_urns` over the object's own model. -/
def fillWithRandomValuesDefault (env : Env) (gen : String → Option Value)
    (rand : Nat → Nat) (obj : Value) (req : Option (List Required))
    (mutf : Option (List Mutability)) : Except String Value :=
  match obj with
  | Value.vobj m _ =>
    match findModel env m with
    | none => Except.error "unknown model class"
    | some md =>
      fillWithRandomValues env gen rand obj
        ((iterAllUrns env md req mutf Bool.true).map (fun p => p.1))
  | v => Except.ok v

/-! ## utils.py: ResourceManager -/

/-- One registered resource: its model name and its (possibly unset) id. -/
structure RegResource where
  model : String
  rid : Option String
deriving DecidableEq, Repr

/-- One delete operation issued during cleanup: the resource class and id it
was called with and the exception the Protocol Client raised, if any (which
`cleanup` swallows). -/
structure DeleteCall where
  model : String
  rid : String
  failed : Option String
deriving DecidableEq, Repr

/-- The loop body of `ResourceManager.cleanup` (utils.py lines 263-269) over
an already-reversed registry: one guarded delete per entry, inside
`try: … except Exception: pass`, so the trace records every attempt and the
iteration continues regardless of failures. -/
def cleanupGo (delete : String → String → Option String) :
    List RegResource → List DeleteCall
  | [] => []
  | r :: rest =>
    (match r.rid with
     | some i => [DeleteCall.mk r.model i (delete r.model i)]
     | none => []) ++ cleanupGo delete rest

/-- utils.py `ResourceManager.cleanup`: issue best-effort deletes over the
registry in reverse registration order; the registry itself is not cleared.
The result is the trace of issued delete calls paired with the registry
state after the call; the function is total because every Protocol Client
exception is swallowed. -/
def cleanup (delete : String → String → Option String) (resources : List RegResource) :
    List DeleteCall × List RegResource :=
  (cleanupGo delete resources.reverse, resources)

/-- What the Protocol Client's `create` returned: a recognizable `Resource`
instance, or anything else (an `Error` or a `dict`). -/
inductive CreateResult where
  | resource (r : RegResource)
  | other (desc : String)
deriving DecidableEq, Repr

/-- utils.py `ResourceManager.create_and_register`: filling the fresh object
may itself create and register dependency objects through the nested
`create_and_register` call in `generate_random_value` (filling.py line 135);
`fillDeps` is the list of those registrations.  Then the filled object is
submitted through `create`: a `Resource` result is appended to the registry
and returned, any other result raises `ValueError` (the registry keeps the
dependency registrations in either case — Python state survives the raise). -/
def createAndRegister (fillDeps : List RegResource) (created : CreateResult)
    (resources : List RegResource) : List RegResource × Except String RegResource :=
  let afterFill := resources ++ fillDeps
  match created with
  | CreateResult.resource r => (afterFill ++ [r], Except.ok r)
  | CreateResult.other d =>
    (afterFill, Except.error ("Failed to create resource: " ++ d))

/-! ## Specification predicates used by the theorems -/

/-- The RFC 7643 primary-uniqueness shape of one synthesized object: for
every declared field whose value is a non-empty list whose first element
exposes a `primary` flag, the element at the pseudo-randomly chosen index
`rand (len - 1)` — index `0` when the list has one element — carries
`primary = True` and every other element carries `primary = False`. -/
def PrimaryInvariant (env : Env) (rand : Nat → Nat) (obj : Value) : Prop :=
  ∀ m flds md, obj = Value.vobj m flds → findModel env m = some md →
    ∀ fd, fd ∈ md.fields →
      ∀ x xs, getattrV obj fd.name = Value.vlist (x :: xs) →
        hasattrV x "primary" = Bool.true →
        rand ((x :: xs).length - 1) < (x :: xs).length ∧
        ∀ j (hj : j < (x :: xs).length),
          getattrV ((x :: xs).get ⟨j, hj⟩) "primary" =
            Value.vbool (decide (j = rand ((x :: xs).length - 1)))

/-- Shape of one URN yielded by `iter_urns` for a model: either a top-level
field that passes the filters, or a sub-attribute of a complex top-level
field that passes the filters — the sub-attribute's own annotations go
unconsulted. -/
def YieldedFrom (env : Env) (md : ModelDef) (req : Option (List Required))
    (mutf : Option (List Mutability)) (includeSub : Bool) (u : String) : Prop :=
  ∃ f, f ∈ md.fields ∧
    f.name ≠ "meta" ∧ f.name ≠ "id" ∧ f.name ≠ "schemas" ∧
    passesReq req f.required = Bool.true ∧
    passesMut mutf f.mutability = Bool.true ∧
    (u = urnForField env md f ∨
      (includeSub = Bool.true ∧
        ∃ mn smd sf, f.rootType = RootType.complexOf mn ∧
          findModel env mn = some smd ∧ sf ∈ smd.fields ∧
          u = urnForField env md f ++ "." ++ toCamel sf.name))

/-- Safe dotted instance traversal: every intermediate hop resolves to a
field whose current value is a (single-valued) sub-object, or is unset with
a model-typed root so the source creates the intermediate on demand, and the
final hop resolves.  These are the paths on which `set_value_by_urn` neither
no-ops (multi-valued or unresolvable intermediate) nor raises (unresolvable
final segment). -/
inductive DottedSafe (env : Env) : Value → List String → Value → Prop where
  | last :
      ∀ obj fname f v,
        findFieldNameV env obj fname = some f →
        DottedSafe env obj [fname] v
  | stepObj :
      ∀ obj p q rest f m flds v,
        findFieldNameV env obj p = some f →
        getattrV obj f = Value.vobj m flds →
        DottedSafe env (Value.vobj m flds) (q :: rest) v →
        DottedSafe env obj (p :: q :: rest) v
  | stepNull :
      ∀ obj p q rest f rt m flds v,
        findFieldNameV env obj p = some f →
        getattrV obj f = Value.vnull →
        fieldRootTypeV env obj f = some rt →
        defaultOfRootType env rt = some (Value.vobj m flds) →
        DottedSafe env (Value.vobj m flds) (q :: rest) v →
        DottedSafe env obj (p :: q :: rest) v

/-- Safe colon-free path: a simple single-valued attribute, or a safe dotted
traversal. -/
inductive PlainSafe (env : Env) : Value → String → Value → Prop where
  | simple :
      ∀ obj urn f v,
        strContainsCh urn '.' = Bool.false →
        findFieldNameV env obj urn = some f →
        fieldMultiValuedV env obj f = Bool.false →
        PlainSafe env obj urn v
  | dotted :
      ∀ obj urn v,
        strContainsCh urn '.' = Bool.true →
        DottedSafe env obj (strSplitOn urn '.') v →
        PlainSafe env obj urn v

/-- Safe path for the full `set_value_by_urn` / `get_value_by_urn` pair:
an unqualified safe path, a path qualified by the instance's own schema URN,
an exact extension-URN path, or a path entering an extension instance.  The
side conditions pin down which branch of the two source functions runs: no
earlier registered extension may capture the path first, and for the two
extension forms the later source checks must also be unambiguous. -/
inductive SafePath (env : Env) : Value → String → Value → Prop where
  | plain :
      ∀ obj urn v,
        strContainsCh urn ':' = Bool.false →
        PlainSafe env obj urn v →
        SafePath env obj urn v
  | ownSchema :
      ∀ obj m flds md mdSchema urn v,
        strContainsCh urn ':' = Bool.true →
        obj = Value.vobj m flds →
        findModel env m = some md →
        md.schemaUrn = some mdSchema →
        (md.kind = MKind.resource ∨ md.kind = MKind.extension) →
        strStarts urn mdSchema = Bool.true →
        strContainsCh (strDropPre (strDropPre urn mdSchema) ":") ':' = Bool.false →
        PlainSafe env obj (strDropPre (strDropPre urn mdSchema) ":") v →
        SafePath env obj urn v
  | extAssign :
      ∀ obj m flds md mdSchema pre extSchema extName post urn v,
        strContainsCh urn ':' = Bool.true →
        obj = Value.vobj m flds →
        findModel env m = some md →
        md.schemaUrn = some mdSchema →
        md.kind = MKind.resource →
        strStarts urn mdSchema = Bool.false →
        md.extensions = pre ++ (extSchema, extName) :: post →
        (∀ e, e ∈ pre → urn ≠ e.1 ∧ strStarts urn e.1 = Bool.false) →
        urn = extSchema →
        (∀ e, e ∈ post → extName ≠ e.1 ∧ strStarts extName e.1 = Bool.false) →
        strContainsCh extName '.' = Bool.false →
        findFieldNameM md extName = some extName →
        SafePath env obj urn v
  | extEnter :
      ∀ obj m flds md mdSchema pre extSchema extName post emd sub urn v,
        strContainsCh urn ':' = Bool.true →
        obj = Value.vobj m flds →
        findModel env m = some md →
        md.schemaUrn = some mdSchema →
        md.kind = MKind.resource →
        strStarts urn mdSchema = Bool.false →
        md.extensions = pre ++ (extSchema, extName) :: post →
        (∀ e, e ∈ pre → urn ≠ e.1 ∧ strStarts urn e.1 = Bool.false) →
        urn ≠ extSchema →
        strStarts urn extSchema = Bool.true →
        0 < extSchema.data.length →
        findModel env extName = some emd →
        (getattrV obj extName = Value.vnull ∧ sub = defaultInstance emd ∨
          getattrV obj extName = sub ∧ modelOfV sub = some emd.name) →
        SafePath env sub (strDropPre (strDropPre urn extSchema) ":") v →
        SafePath env obj urn v

/-! ## A concrete schema environment

A small environment in the image of the scim2-models `User[EnterpriseUser]`
schema the test suite exercises, used to instantiate the theorems and to
exhibit counterexamples. -/

/-- Shorthand for an optional single-valued read-write field. -/
def sfld (n : String) (rt : RootType) : FieldDef :=
  FieldDef.mk n Bool.false (some Required.false) (some Mutability.readWrite) rt

def nameMd : ModelDef :=
  ModelDef.mk "Name" MKind.complex none
    [sfld "formatted" (RootType.prim PrimKind.pstr),
     sfld "family_name" (RootType.prim PrimKind.pstr),
     sfld "given_name" (RootType.prim PrimKind.pstr)] []

def emailMd : ModelDef :=
  ModelDef.mk "Email" MKind.complex none
    [sfld "value" (RootType.prim PrimKind.pstr),
     sfld "primary" (RootType.prim PrimKind.pbool)] []

def managerMd : ModelDef :=
  ModelDef.mk "Manager" MKind.complex none
    [sfld "value" (RootType.prim PrimKind.pstr),
     sfld "ref" (RootType.prim PrimKind.pstr),
     sfld "display_name" (RootType.prim PrimKind.pstr)] []

def entMd : ModelDef :=
  ModelDef.mk "EnterpriseUser" MKind.extension (some "urn:ent")
    [sfld "schemas" (RootType.prim PrimKind.pstr),
     sfld "cost_center" (RootType.prim PrimKind.pstr),
     sfld "manager" (RootType.complexOf "Manager")] []

def userMd : ModelDef :=
  ModelDef.mk "User" MKind.resource (some "urn:u")
    [sfld "id" (RootType.prim PrimKind.pstr),
     sfld "meta" (RootType.prim PrimKind.pstr),
     sfld "schemas" (RootType.prim PrimKind.pstr),
     FieldDef.mk "user_name" Bool.false (some Required.true)
       (some Mutability.readWrite) (RootType.prim PrimKind.pstr),
     FieldDef.mk "name" Bool.false (some Required.true)
       (some Mutability.readWrite) (RootType.complexOf "Name"),
     FieldDef.mk "emails" Bool.true (some Required.false)
       (some Mutability.readWrite) (RootType.complexOf "Email"),
     sfld "EnterpriseUser" (RootType.extensionOf "EnterpriseUser")]
    [("urn:ent", "EnterpriseUser")]

def demoEnv : Env := [userMd, nameMd, emailMd, entMd, managerMd]

def freshUser : Value := defaultInstance userMd

/-- A user whose `emails` collection is already populated. -/
def userWithEmail : Value :=
  setattrV freshUser "emails"
    (Value.vlist [Value.vobj "Email" [("value", Value.vstr "a"), ("primary", Value.vnull)]])

/-- A `User` model with no `name` attribute, for the resolver example. -/
def userNoNameMd : ModelDef :=
  ModelDef.mk "User" MKind.resource (some "urn:u")
    [sfld "id" (RootType.prim PrimKind.pstr),
     FieldDef.mk "user_name" Bool.false (some Required.true)
       (some Mutability.readWrite) (RootType.prim PrimKind.pstr)] []

def envNoName : Env := [userNoNameMd]

/-- A value generator in the image of `generate_random_value`: a two-element
`emails` collection and a plain userName; every other attribute is left
unset. -/
def wGen : String → Option Value
  | "userName" => some (Value.vstr "jd")
  | "emails" =>
    some (Value.vlist
      [Value.vobj "Email" [("value", Value.vstr "a"), ("primary", Value.vnull)],
       Value.vobj "Email" [("value", Value.vstr "b"), ("primary", Value.vnull)]])
  | _ => none

/-- A pseudo-random index draw that always picks the upper bound. -/
def wRand : Nat → Nat := fun n => n

/-- The object `fill_with_random_values` builds from `freshUser` under `wGen`
and `wRand`. -/
def wOut : Value :=
  Value.vobj "User"
    [("id", Value.vnull), ("meta", Value.vnull), ("schemas", Value.vnull),
     ("user_name", Value.vstr "jd"), ("name", Value.vnull),
     ("emails", Value.vlist
       [Value.vobj "Email" [("value", Value.vstr "a"), ("primary", Value.vbool Bool.false)],
        Value.vobj "Email" [("value", Value.vstr "b"), ("primary", Value.vbool Bool.true)]]),
     ("EnterpriseUser", Value.vnull)]

/-- A synthesized `manager` complex value before the reference pass. -/
def wManager : Value :=
  Value.vobj "Manager"
    [("value", Value.vnull), ("ref", Value.vstr "https://x/Users/42"),
     ("display_name", Value.vnull)]

/-- The synthesized `manager` value after the reference pass. -/
def wManagerOut : Value :=
  Value.vobj "Manager"
    [("value", Value.vstr "42"), ("ref", Value.vstr "https://x/Users/42"),
     ("display_name", Value.vnull)]

/-- A Protocol Client whose delete always raises (the resource is gone). -/
def wDelete : String → String → Option String :=
  fun _ _ => some "Exception: already gone"

/-- A registry with one id-less entry and one entry carrying an id. -/
def wReg : List RegResource :=
  [RegResource.mk "User" none, RegResource.mk "Group" (some "5")]

/-- A dependency object registered while filling a reference attribute. -/
def wDep : RegResource := RegResource.mk "User" (some "77")

/-!
# Theorems

First the supporting lemmas, then one named theorem per claim (with its
witness or counterexample where required).
-/

/-! ## Association list and attribute lemmas -/

theorem lookupStr_updateStr_self (flds : List (String × Value)) (f : String) (v : Value) :
    lookupStr (updateStr flds f v) f = some v := by
  induction flds with
  | nil => simp [updateStr, lookupStr]
  | cons kv rest ih =>
    by_cases h : kv.1 = f
    · simp [updateStr, lookupStr, h]
    · simp only [updateStr, lookupStr]
      rw [if_neg (by simpa using h)]
      simpa [lookupStr, h] using ih

theorem lookupStr_updateStr_other (flds : List (String × Value)) (f k : String)
    (v : Value) (hne : k ≠ f) :
    lookupStr (updateStr flds f v) k = lookupStr flds k := by
  induction flds with
  | nil => simp [updateStr, lookupStr, hne, Ne.symm hne]
  | cons kv rest ih =>
    by_cases h : kv.1 = f
    · simp only [updateStr, lookupStr]
      rw [if_pos (by simpa using h)]
      simp [lookupStr, hne, h, Ne.symm hne]
    · simp only [updateStr, lookupStr]
      rw [if_neg (by simpa using h)]
      by_cases h2 : kv.1 = k
      · simp [lookupStr, h2]
      · simpa [lookupStr, h2] using ih

theorem getattrV_setattrV_self (m : String) (flds : List (String × Value))
    (f : String) (v : Value) :
    getattrV (setattrV (Value.vobj m flds) f v) f = v := by
  simp [setattrV, getattrV, lookupStr_updateStr_self]

theorem getattrV_setattrV_other (m : String) (flds : List (String × Value))
    (f k : String) (v : Value) (hne : k ≠ f) :
    getattrV (setattrV (Value.vobj m flds) f v) k = getattrV (Value.vobj m flds) k := by
  simp [setattrV, getattrV, lookupStr_updateStr_other _ _ _ _ hne]

theorem modelOfV_setattrV (m : String) (flds : List (String × Value))
    (f : String) (v : Value) :
    modelOfV (setattrV (Value.vobj m flds) f v) = some m := rfl

/-! ## C6: cleanup iterates in reverse, one guarded delete per entry -/

theorem cleanupGo_eq_filterMap (delete : String → String → Option String)
    (l : List RegResource) :
    cleanupGo delete l =
      l.filterMap (fun r => r.rid.map (fun i => DeleteCall.mk r.model i (delete r.model i))) := by
  induction l with
  | nil => rfl
  | cons r rest ih =>
    cases h : r.rid with
    | none => simp [cleanupGo, h, ih]
    | some i => simp [cleanupGo, h, ih]

/-- C6: for every registry state, `cleanup()` issues its delete operations in
exact reverse registration order, at most one per registered entry (none for
an id-less entry), and is total — every Protocol Client exception is caught
by the `try/except` and recorded in the trace while iteration continues with
the remaining entries. -/
theorem claim6_cleanup_reverse_best_effort
    (delete : String → String → Option String) (resources : List RegResource) :
    (cleanup delete resources).1 =
      resources.reverse.filterMap
        (fun r => r.rid.map (fun i => DeleteCall.mk r.model i (delete r.model i))) ∧
    (cleanup delete resources).1.length ≤ resources.length := by
  constructor
  · exact cleanupGo_eq_filterMap delete resources.reverse
  · rw [show (cleanup delete resources).1 = cleanupGo delete resources.reverse from rfl,
      cleanupGo_eq_filterMap]
    calc (resources.reverse.filterMap
          (fun r => r.rid.map (fun i => DeleteCall.mk r.model i (delete r.model i)))).length
        ≤ resources.reverse.length := List.length_filterMap_le _ _
      _ = resources.length := List.length_reverse _

/-- Witness for C6 at a concrete registry. -/
theorem claim6_cleanup_reverse_best_effort_witness :
    (cleanup wDelete wReg).1 =
      wReg.reverse.filterMap
        (fun r => r.rid.map (fun i => DeleteCall.mk r.model i (wDelete r.model i))) ∧
    (cleanup wDelete wReg).1.length ≤ wReg.length :=
  claim6_cleanup_reverse_best_effort wDelete wReg

/-! ## C7: cleanup is re-entrant, not single-pass -/

/-- C7 counterexample: the registry is not cleared by `cleanup()`, so with
one registered resource carrying an id, a second `cleanup()` call issues the
same delete again — the claimed "second call performs no further deletions"
fails. -/
theorem claim7_counterexample :
    (cleanup wDelete (cleanup wDelete [RegResource.mk "User" (some "1")]).2).1 =
      [DeleteCall.mk "User" "1" (some "Exception: already gone")] ∧
    (cleanup wDelete (cleanup wDelete [RegResource.mk "User" (some "1")]).2).1 ≠ [] := by
  constructor
  · rfl
  · decide

/-- C7 as amended: calling `cleanup()` twice never raises (both calls are
total), the registry is left untouched by a call, and the second call issues
exactly the same best-effort deletions as the first, each failure
independently swallowed. -/
theorem claim7_cleanup_reentrant (delete : String → String → Option String)
    (resources : List RegResource) :
    (cleanup delete (cleanup delete resources).2).1 = (cleanup delete resources).1 ∧
    (cleanup delete resources).2 = resources :=
  ⟨rfl, rfl⟩

/-! ## C9: registration on create failure -/

/-- C9 counterexample: when filling the object registered a dependency (the
nested `create_and_register` of filling.py line 135) and `create` then
returns a non-`Resource` value, `create_and_register` raises — but the
registry is *not* "exactly as it was before the call": it retains the
dependency registration. -/
theorem claim9_counterexample :
    (createAndRegister [wDep] (CreateResult.other "Error") []).2 =
      Except.error "Failed to create resource: Error" ∧
    (createAndRegister [wDep] (CreateResult.other "Error") []).1 = [wDep] ∧
    ([wDep] : List RegResource) ≠ [] := by
  refine ⟨rfl, rfl, ?_⟩
  decide

/-- C9 as amended: on a non-`Resource` create result, `create_and_register`
raises `ValueError` and appends nothing itself — the registry equals its
pre-call contents extended by exactly the dependency registrations performed
while filling; only when `create` returns a `Resource` is that instance
appended, and it is then the returned instance. -/
theorem claim9_create_and_register_registration
    (fillDeps resources : List RegResource) (r : RegResource) (d : String) :
    createAndRegister fillDeps (CreateResult.resource r) resources =
      (resources ++ fillDeps ++ [r], Except.ok r) ∧
    createAndRegister fillDeps (CreateResult.other d) resources =
      (resources ++ fillDeps, Except.error ("Failed to create resource: " ++ d)) := by
  constructor
  · simp [createAndRegister]
  · simp [createAndRegister]

/-! ## C10: cleanup deletes only entries that carry an id -/

/-- C10: every delete operation issued by `cleanup()` targets a registered
resource with a non-`None` id — a registered resource whose id is unset is
never the subject of a delete call. -/
theorem claim10_cleanup_skips_idless
    (delete : String → String → Option String) (resources : List RegResource)
    (c : DeleteCall) (hc : c ∈ (cleanup delete resources).1) :
    ∃ r, r ∈ resources ∧ r.rid = some c.rid ∧ r.model = c.model := by
  have h := hc
  rw [show (cleanup delete resources).1 = cleanupGo delete resources.reverse from rfl,
    cleanupGo_eq_filterMap] at h
  rcases List.mem_filterMap.mp h with ⟨r, hr, hmap⟩
  refine ⟨r, List.mem_reverse.mp hr, ?_⟩
  cases hrid : r.rid with
  | none => rw [hrid] at hmap; simp at hmap
  | some i =>
    rw [hrid] at hmap
    simp only [Option.map_some'] at hmap
    cases hmap
    exact ⟨rfl, rfl⟩

/-- Witness for C10: in the concrete registry, the single issued delete call
is attributable to the entry that carries an id. -/
theorem claim10_cleanup_skips_idless_witness :
    DeleteCall.mk "Group" "5" (some "Exception: already gone") ∈ (cleanup wDelete wReg).1 ∧
    ∃ r, r ∈ wReg ∧ r.rid = some "5" ∧ r.model = "Group" := by
  refine ⟨by decide, ?_⟩
  exact claim10_cleanup_skips_idless wDelete wReg
    (DeleteCall.mk "Group" "5" (some "Exception: already gone")) (by decide)

/-! ## C8: what iter_urns / iter_all_urns yield -/

theorem fieldEligible_eq_true (req : Option (List Required))
    (mutf : Option (List Mutability)) (f : FieldDef) :
    fieldEligible req mutf f = Bool.true ↔
      (f.name ≠ "meta" ∧ f.name ≠ "id" ∧ f.name ≠ "schemas" ∧
        passesReq req f.required = Bool.true ∧ passesMut mutf f.mutability = Bool.true) := by
  simp [fieldEligible, Bool.and_eq_true, Bool.not_eq_true', Bool.or_eq_false_iff,
    and_assoc]

theorem mem_fieldUrns (env : Env) (md : ModelDef) (inc : Bool) (f : FieldDef)
    (u : String) (hu : u ∈ fieldUrns env md inc f) :
    u = urnForField env md f ∨
      (inc = Bool.true ∧
        ∃ mn smd sf, f.rootType = RootType.complexOf mn ∧
          findModel env mn = some smd ∧ sf ∈ smd.fields ∧
          u = urnForField env md f ++ "." ++ toCamel sf.name) := by
  simp only [fieldUrns] at hu
  rcases List.mem_cons.mp hu with h | h
  · exact Or.inl h
  · right
    revert h
    cases hrt : f.rootType with
    | prim k => intro h; simp at h
    | extensionOf mn => intro h; simp at h
    | complexOf mn =>
      cases hinc : inc with
      | false => intro h; simp at h
      | true =>
        cases hfm : findModel env mn with
        | none => intro h; simp [hfm] at h
        | some smd =>
          intro h
          simp only [hfm] at h
          rcases List.mem_map.mp h with ⟨sf, hsf, heq⟩
          exact ⟨rfl, mn, smd, sf, rfl, hfm, hsf, heq.symm⟩

theorem mem_iterUrnsGo (env : Env) (md : ModelDef) (req : Option (List Required))
    (mutf : Option (List Mutability)) (inc : Bool) (l : List FieldDef) (u : String)
    (hu : u ∈ iterUrnsGo env md req mutf inc l) :
    ∃ f, f ∈ l ∧ fieldEligible req mutf f = Bool.true ∧ u ∈ fieldUrns env md inc f := by
  induction l with
  | nil => simp [iterUrnsGo] at hu
  | cons f rest ih =>
    simp only [iterUrnsGo, List.mem_append] at hu
    rcases hu with h | h
    · refine ⟨f, List.mem_cons_self _ _, ?_⟩
      revert h
      cases he : fieldEligible req mutf f with
      | false => intro h; simp at h
      | true => intro h; exact ⟨rfl, by simpa using h⟩
    · rcases ih h with ⟨g, hg, he, hmem⟩
      exact ⟨g, List.mem_cons_of_mem _ hg, he, hmem⟩

theorem iterUrns_yieldedFrom (env : Env) (md : ModelDef)
    (req : Option (List Required)) (mutf : Option (List Mutability)) (inc : Bool)
    (u : String) (hu : u ∈ iterUrns env md req mutf inc) :
    YieldedFrom env md req mutf inc u := by
  rcases mem_iterUrnsGo env md req mutf inc md.fields u hu with ⟨f, hf, he, hmem⟩
  rcases (fieldEligible_eq_true req mutf f).mp he with ⟨h1, h2, h3, h4, h5⟩
  rcases mem_fieldUrns env md inc f u hmem with h | ⟨hinc, mn, smd, sf, hrt, hfm, hsf, hequ⟩
  · exact ⟨f, hf, h1, h2, h3, h4, h5, Or.inl h⟩
  · exact ⟨f, hf, h1, h2, h3, h4, h5, Or.inr ⟨hinc, mn, smd, sf, hrt, hfm, hsf, hequ⟩⟩

theorem mem_extUrnsGo (env : Env) (req : Option (List Required))
    (mutf : Option (List Mutability)) (inc : Bool) (l : List (String × String))
    (u n : String) (hu : (u, n) ∈ extUrnsGo env req mutf inc l) :
    ∃ es emd, (es, n) ∈ l ∧ findModel env n = some emd ∧
      u ∈ iterUrns env emd req mutf inc := by
  induction l with
  | nil => simp [extUrnsGo] at hu
  | cons ext rest ih =>
    simp only [extUrnsGo, List.mem_append] at hu
    rcases hu with h | h
    · revert h
      cases hfm : findModel env ext.2 with
      | none => intro h; simp at h
      | some emd =>
        intro h
        rcases List.mem_map.mp h with ⟨a, ha, heq⟩
        rcases Prod.mk.injEq .. ▸ heq with ⟨hau, han⟩
        refine ⟨ext.1, emd, ?_, ?_, ?_⟩
        · rw [← han]; exact List.mem_cons_self _ _
        · rw [← han]; exact hfm
        · rw [← hau]; exact ha
    · rcases ih h with ⟨es, emd, hmem, hfm, hiter⟩
      exact ⟨es, emd, List.mem_cons_of_mem _ hmem, hfm, hiter⟩

/-- C8 as amended: every pair yielded by `iter_all_urns` is either a URN of
the base model or a URN of one registered extension model, and in both cases
the URN is a top-level field that satisfies the required / mutability
filters, or a sub-attribute of a complex top-level field that satisfies
them; the sub-attribute's own annotations are *not* consulted (the original
claim's assertion that they satisfy the filters too is refuted by
`claim8_counterexample`). -/
theorem claim8_iteration_filters (env : Env) (md : ModelDef)
    (req : Option (List Required)) (mutf : Option (List Mutability)) (inc : Bool)
    (u n : String) (hu : (u, n) ∈ iterAllUrns env md req mutf inc) :
    (n = md.name ∧ YieldedFrom env md req mutf inc u) ∨
      (∃ es emd, (es, n) ∈ md.extensions ∧ findModel env n = some emd ∧
        YieldedFrom env emd req mutf inc u) := by
  simp only [iterAllUrns, List.mem_append] at hu
  rcases hu with h | h
  · rcases List.mem_map.mp h with ⟨a, ha, heq⟩
    rcases Prod.mk.injEq .. ▸ heq with ⟨hau, han⟩
    exact Or.inl ⟨han.symm, hau ▸ iterUrns_yieldedFrom env md req mutf inc a ha⟩
  · right
    revert h
    cases hk : md.kind == MKind.resource with
    | false => intro h; simp at h
    | true =>
      intro h
      simp only [if_pos rfl] at h
      rcases mem_extUrnsGo env req mutf inc md.extensions u n h with ⟨es, emd, hmem, hfm, hit⟩
      exact ⟨es, emd, hmem, hfm, iterUrns_yieldedFrom env emd req mutf inc u hit⟩

/-- Witness for C8 at the concrete environment: the yielded pair
`("name.familyName", "User")` is attributed to the eligible complex field
`name` of the base model. -/
theorem claim8_iteration_filters_witness :
    ("name.familyName", "User") ∈
      iterAllUrns demoEnv userMd (some [Required.true]) none Bool.true ∧
    (("User" = userMd.name ∧
        YieldedFrom demoEnv userMd (some [Required.true]) none Bool.true "name.familyName") ∨
      (∃ es emd, (es, "User") ∈ userMd.extensions ∧ findModel demoEnv "User" = some emd ∧
        YieldedFrom demoEnv emd (some [Required.true]) none Bool.true "name.familyName")) := by
  refine ⟨by decide, ?_⟩
  exact claim8_iteration_filters demoEnv userMd (some [Required.true]) none Bool.true
    "name.familyName" "User" (by decide)

/-- C8 counterexample: with the filter `required=[Required.true]`,
`iter_urns` yields the sub-attribute URN `name.formatted` although that
sub-attribute's own required annotation is `Required.false`, which fails the
filter — the filters are applied to the parent only, not "at each node". -/
theorem claim8_counterexample :
    "name.formatted" ∈ iterUrns demoEnv userMd (some [Required.true]) none Bool.true ∧
    ((findModel demoEnv "Name").bind (fun md => findFieldDef md "formatted")).map
        (fun f => f.required) = some (some Required.false) ∧
    passesReq (some [Required.true]) (some Required.false) = Bool.false := by
  refine ⟨by decide, by decide, by decide⟩

/-! ## C2: resolver not-found behaviour -/

/-- C2 as amended: `get_target_model_by_urn` returns not-found (`None`),
never raising, whenever an *intermediate* hop of the (schema-prefix-stripped)
dotted path fails to resolve — in particular resolving `name.familyName`
against a schema lacking a `name` attribute returns not-found — and a
successful return for an undotted path is a pair with a non-`None` field.
When only the *final* segment of a dotted path fails, the source returns the
pair `(reached model, None)` instead of not-found (see the counterexample),
and a multi-valued intermediate hop is traversed through its element type
rather than reported as not-found. -/
theorem claim2_resolver_not_found :
    (∀ (env : Env) (t : TypeRef) (urn : String),
      strContainsCh (stripUrnSchemaT env t urn).2 '.' = Bool.true →
      walkT env (stripUrnSchemaT env t urn).1
        (strSplitOn (stripUrnSchemaT env t urn).2 '.').dropLast = none →
      getTargetModelByUrn env t urn = none) ∧
    getTargetModelByUrn envNoName (TypeRef.tmodel "User") "name.familyName" = none ∧
    (∀ (env : Env) (t : TypeRef) (urn : String),
      strContainsCh (stripUrnSchemaT env t urn).2 '.' = Bool.false →
      getTargetModelByUrn env t urn = none ∨
        ∃ f, getTargetModelByUrn env t urn =
          some ((stripUrnSchemaT env t urn).1, some f)) := by
  refine ⟨?_, by decide, ?_⟩
  · intro env t urn hdot hwalk
    simp only [getTargetModelByUrn, hdot, if_pos, hwalk]
  · intro env t urn hdot
    simp only [getTargetModelByUrn, hdot, Bool.false_eq_true, if_false]
    cases hf : findFieldNameT env (stripUrnSchemaT env t urn).1 (stripUrnSchemaT env t urn).2 with
    | none => exact Or.inl rfl
    | some f => exact Or.inr ⟨f, rfl⟩

/-- Witness for C2 at a concrete input: with the full environment, the first
hop of `nonexistent.field.subfield` fails and the resolver answers not-found. -/
theorem claim2_resolver_not_found_witness :
    getTargetModelByUrn demoEnv (TypeRef.tmodel "User") "nonexistent.field.subfield" =
      none ∧
    getTargetModelByUrn envNoName (TypeRef.tmodel "User") "name.familyName" = none := by
  constructor
  · exact claim2_resolver_not_found.1 demoEnv (TypeRef.tmodel "User")
      "nonexistent.field.subfield" (by decide) (by decide)
  · exact claim2_resolver_not_found.2.1

/-- C2 counterexample: `name` resolves on the demo `User` schema but
`nonExistent` is not a field of `Name`; the final hop thus fails, yet the
source (urns.py lines 119-121, which has no `None` check for the last
segment) returns the pair `(Name, None)` rather than not-found — refuting
both "returns not-found whenever any hop fails" and "a successful return is
a pair with a non-None field". -/
theorem claim2_counterexample :
    getTargetModelByUrn demoEnv (TypeRef.tmodel "User") "name.nonExistent" =
      some (TypeRef.tmodel "Name", none) ∧
    findFieldNameT demoEnv (TypeRef.tmodel "Name") "nonExistent" = none ∧
    getTargetModelByUrn demoEnv (TypeRef.tmodel "User") "name.nonExistent" ≠ none := by
  refine ⟨by decide, by decide, by decide⟩

/-! ## C5: the reference-consistency pass -/

theorem hasattrV_vobj (item : Value) (f : String) (h : hasattrV item f = Bool.true) :
    ∃ m flds, item = Value.vobj m flds := by
  cases item with
  | vobj m flds => exact ⟨m, flds, rfl⟩
  | vnull => simp [hasattrV] at h
  | vstr s => simp [hasattrV] at h
  | vint n => simp [hasattrV] at h
  | vbool b => simp [hasattrV] at h
  | vlist l => simp [hasattrV] at h

theorem fixRefOne_backfill (item item' : Value) (heq : fixRefOne item = Except.ok item')
    (s : String) (h1 : hasattrV item "ref" = Bool.true)
    (h2 : hasattrV item "value" = Bool.true)
    (h3 : getattrV item "ref" = Value.vstr s) (hs : s.data ≠ []) :
    getattrV item' "value" = Value.vstr (lastSegmentStr s '/') ∧
    getattrV item' "ref" = Value.vstr s := by
  rcases hasattrV_vobj item "ref" h1 with ⟨m, flds, hobj⟩
  have hcond : (hasattrV item "ref" && hasattrV item "value" &&
      truthyV (Value.vstr s)) = Bool.true := by
    rw [h1, h2]
    simp [truthyV, hs]
  have hrun : fixRefOne item =
      Except.ok (setattrV item "value" (Value.vstr (lastSegmentStr s '/'))) := by
    simp only [fixRefOne]
    rw [h3, if_pos hcond]
  rw [hrun] at heq
  cases heq
  subst hobj
  constructor
  · exact getattrV_setattrV_self m flds "value" _
  · rw [getattrV_setattrV_other m flds "value" "ref" _ (by decide)]
    exact h3

theorem fixRefList_ok (items items' : List Value)
    (h : fixRefList items = Except.ok items') :
    items'.length = items.length ∧
    ∀ j (hj : j < items.length) (hj2 : j < items'.length),
      fixRefOne (items.get ⟨j, hj⟩) = Except.ok (items'.get ⟨j, hj2⟩) := by
  induction items generalizing items' with
  | nil =>
    simp only [fixRefList] at h
    cases h
    refine ⟨rfl, ?_⟩
    intro j hj hj2
    exact absurd hj (by simp)
  | cons item rest ih =>
    simp only [fixRefList] at h
    cases hone : fixRefOne item with
    | error e => rw [hone] at h; simp at h
    | ok it =>
      rw [hone] at h
      cases hrest : fixRefList rest with
      | error e => rw [hrest] at h; simp [Except.map] at h
      | ok r =>
        rw [hrest] at h
        simp only [Except.map] at h
        cases h
        rcases ih r hrest with ⟨hlen, hall⟩
        refine ⟨by simp [hlen], ?_⟩
        intro j hj hj2
        cases j with
        | zero => simpa using hone
        | succ k =>
          simp only [List.length_cons, Nat.succ_lt_succ_iff] at hj hj2
          simpa using hall k hj (by omega)

/-- C5: for every synthesized value carrying both a reference URL attribute
`ref` and a companion identifier attribute `value`, with the reference URL
set (a non-empty string), the reference-consistency pass rewrites `value` to
the part of the reference URL after its last slash, leaving `ref` in place —
element-wise over a list value, directly over a single value. -/
theorem claim5_reference_backfill (v v' : Value)
    (h : fixReferenceValuesInValue v = Except.ok v') :
    ((∀ m flds, v = Value.vobj m flds →
      ∀ s, hasattrV v "ref" = Bool.true → hasattrV v "value" = Bool.true →
        getattrV v "ref" = Value.vstr s → s.data ≠ [] →
        getattrV v' "value" = Value.vstr (lastSegmentStr s '/') ∧
        getattrV v' "ref" = Value.vstr s) ∧
     (∀ items, v = Value.vlist items →
      ∃ items', v' = Value.vlist items' ∧ items'.length = items.length ∧
        ∀ j (hj : j < items.length) (hj2 : j < items'.length),
          ∀ s, hasattrV (items.get ⟨j, hj⟩) "ref" = Bool.true →
            hasattrV (items.get ⟨j, hj⟩) "value" = Bool.true →
            getattrV (items.get ⟨j, hj⟩) "ref" = Value.vstr s → s.data ≠ [] →
            getattrV (items'.get ⟨j, hj2⟩) "value" =
              Value.vstr (lastSegmentStr s '/') ∧
            getattrV (items'.get ⟨j, hj2⟩) "ref" = Value.vstr s)) := by
  constructor
  · intro m flds hobj s h1 h2 h3 hs
    have hv : fixRefOne v = Except.ok v' := by
      rw [hobj] at h ⊢
      exact h
    exact fixRefOne_backfill v v' hv s h1 h2 h3 hs
  · intro items hlist
    subst hlist
    simp only [fixReferenceValuesInValue] at h
    cases hfl : fixRefList items with
    | error e => rw [hfl] at h; simp [Except.map] at h
    | ok r =>
      rw [hfl] at h
      simp only [Except.map] at h
      cases h
      rcases fixRefList_ok items r hfl with ⟨hlen, hall⟩
      refine ⟨r, rfl, hlen, ?_⟩
      intro j hj hj2 s h1 h2 h3 hs
      exact fixRefOne_backfill _ _ (hall j hj hj2) s h1 h2 h3 hs

/-- Witness for C5: a synthesized `manager` value whose `ref` is the created
dependency's location gets its `value` attribute back-filled with the
location's trailing path segment. -/
theorem claim5_reference_backfill_witness :
    fixReferenceValuesInValue wManager = Except.ok wManagerOut ∧
    getattrV wManagerOut "value" = Value.vstr (lastSegmentStr "https://x/Users/42" '/') ∧
    lastSegmentStr "https://x/Users/42" '/' = "42" := by
  refine ⟨rfl, ?_, by decide⟩
  exact ((claim5_reference_backfill wManager wManagerOut rfl).1
    "Manager" _ rfl "https://x/Users/42" rfl rfl rfl (by decide)).1

/-! ## C1: the primary-uniqueness post-pass -/

theorem modelOfV_setattrV_any (obj : Value) (f : String) (v : Value) :
    modelOfV (setattrV obj f v) = modelOfV obj := by
  cases obj <;> rfl

theorem getattrV_setattrV_any_other (obj : Value) (f k : String) (v : Value)
    (hne : k ≠ f) : getattrV (setattrV obj f v) k = getattrV obj k := by
  cases obj with
  | vobj m flds => exact getattrV_setattrV_other m flds f k v hne
  | vnull => rfl
  | vstr s => rfl
  | vint n => rfl
  | vbool b => rfl
  | vlist l => rfl

theorem getattrV_setattrV_vobj_self (obj : Value) (m : String)
    (flds : List (String × Value)) (f : String) (v : Value)
    (hobj : obj = Value.vobj m flds) :
    getattrV (setattrV obj f v) f = v := by
  subst hobj
  exact getattrV_setattrV_self m flds f v

theorem setPrimaryFlags_spec (idx : Nat) (items : List Value) (k : Nat)
    (items' : List Value) (h : setPrimaryFlags idx items k = Except.ok items') :
    items'.length = items.length ∧
    ∀ j (hj2 : j < items'.length),
      getattrV (items'.get ⟨j, hj2⟩) "primary" = Value.vbool (decide (k + j = idx)) := by
  induction items generalizing k items' with
  | nil =>
    simp only [setPrimaryFlags] at h
    cases h
    refine ⟨rfl, ?_⟩
    intro j hj2
    exact absurd hj2 (by simp)
  | cons item rest ih =>
    cases item with
    | vobj mn flds =>
      simp only [setPrimaryFlags] at h
      cases htail : setPrimaryFlags idx rest (k + 1) with
      | error e => rw [htail] at h; simp [Except.map] at h
      | ok tail =>
        rw [htail] at h
        simp only [Except.map] at h
        cases h
        rcases ih (k + 1) tail htail with ⟨hlen, hall⟩
        refine ⟨by simp [hlen], ?_⟩
        intro j hj2
        cases j with
        | zero =>
          simp only [List.get]
          simp [getattrV, lookupStr_updateStr_self]
        | succ i =>
          simp only [List.length_cons, Nat.succ_lt_succ_iff] at hj2
          have := hall i hj2
          simpa [show k + 1 + i = k + (i + 1) by omega] using this
    | vnull => simp [setPrimaryFlags] at h
    | vstr s => simp [setPrimaryFlags] at h
    | vint n => simp [setPrimaryFlags] at h
    | vbool b => simp [setPrimaryFlags] at h
    | vlist l => simp [setPrimaryFlags] at h

theorem getattrV_vobj_of_ne (obj : Value) (f : String)
    (h : getattrV obj f ≠ Value.vnull) : ∃ m flds, obj = Value.vobj m flds := by
  cases obj with
  | vobj m flds => exact ⟨m, flds, rfl⟩
  | vnull => exact absurd rfl h
  | vstr s => exact absurd rfl h
  | vint n => exact absurd rfl h
  | vbool b => exact absurd rfl h
  | vlist l => exact absurd rfl h

/-- Characterization of one step of the `fix_primary_attributes` field loop:
either the field is skipped (its value is not a non-empty list whose first
element exposes `primary`) and the object passes through unchanged, or the
list is re-flagged and the loop continues on the updated object. -/
theorem fixPrimaryGo_cons (rand : Nat → Nat) (obj obj' : Value) (f : FieldDef)
    (rest : List FieldDef) (h : fixPrimaryGo rand obj (f :: rest) = Except.ok obj') :
    ∃ obj1, fixPrimaryGo rand obj1 rest = Except.ok obj' ∧
      ((obj1 = obj ∧
        ∀ x xs, getattrV obj f.name = Value.vlist (x :: xs) →
          hasattrV x "primary" = Bool.false) ∨
       (∃ x0 xs0 items',
          getattrV obj f.name = Value.vlist (x0 :: xs0) ∧
          hasattrV x0 "primary" = Bool.true ∧
          setPrimaryFlags (rand ((x0 :: xs0).length - 1)) (x0 :: xs0) 0 =
            Except.ok items' ∧
          obj1 = setattrV obj f.name (Value.vlist items'))) := by
  cases hv : getattrV obj f.name with
  | vlist items =>
    cases items with
    | nil =>
      simp only [fixPrimaryGo, hv] at h
      exact ⟨obj, h, Or.inl ⟨rfl, fun x xs hx => by simp at hx⟩⟩
    | cons x0 xs0 =>
      cases hp : hasattrV x0 "primary" with
      | false =>
        simp only [fixPrimaryGo, hv, hp, Bool.false_eq_true, if_false] at h
        refine ⟨obj, h, Or.inl ⟨rfl, ?_⟩⟩
        intro x xs hx
        cases hx
        exact hp
      | true =>
        simp only [fixPrimaryGo, hv, hp, if_true] at h
        cases hsp : setPrimaryFlags (rand ((x0 :: xs0).length - 1)) (x0 :: xs0) 0 with
        | error e => rw [hsp] at h; simp at h
        | ok items' =>
          rw [hsp] at h
          exact ⟨_, h, Or.inr ⟨x0, xs0, items', rfl, hp, hsp, rfl⟩⟩
  | vnull =>
    simp only [fixPrimaryGo, hv] at h
    exact ⟨obj, h, Or.inl ⟨rfl, fun x xs hx => by simp at hx⟩⟩
  | vstr s =>
    simp only [fixPrimaryGo, hv] at h
    exact ⟨obj, h, Or.inl ⟨rfl, fun x xs hx => by simp at hx⟩⟩
  | vint n =>
    simp only [fixPrimaryGo, hv] at h
    exact ⟨obj, h, Or.inl ⟨rfl, fun x xs hx => by simp at hx⟩⟩
  | vbool b =>
    simp only [fixPrimaryGo, hv] at h
    exact ⟨obj, h, Or.inl ⟨rfl, fun x xs hx => by simp at hx⟩⟩
  | vobj mn flds =>
    simp only [fixPrimaryGo, hv] at h
    exact ⟨obj, h, Or.inl ⟨rfl, fun x xs hx => by simp at hx⟩⟩

theorem fixPrimaryGo_untouched (rand : Nat → Nat) (fields : List FieldDef)
    (obj obj' : Value) (h : fixPrimaryGo rand obj fields = Except.ok obj') :
    modelOfV obj' = modelOfV obj ∧
    ∀ k, k ∉ fields.map (fun f => f.name) → getattrV obj' k = getattrV obj k := by
  induction fields generalizing obj with
  | nil =>
    simp only [fixPrimaryGo] at h
    cases h
    exact ⟨rfl, fun k _ => rfl⟩
  | cons f rest ih =>
    rcases fixPrimaryGo_cons rand obj obj' f rest h with ⟨obj1, h1, hcase⟩
    rcases ih obj1 h1 with ⟨hm, hall⟩
    have hones :
        modelOfV obj1 = modelOfV obj ∧
        ∀ k, k ≠ f.name → getattrV obj1 k = getattrV obj k := by
      rcases hcase with ⟨heq, _⟩ | ⟨x0, xs0, items', _, _, _, heq⟩
      · subst heq; exact ⟨rfl, fun _ _ => rfl⟩
      · subst heq
        exact ⟨modelOfV_setattrV_any obj f.name _,
          fun k hk => getattrV_setattrV_any_other obj f.name k _ hk⟩
    refine ⟨hm.trans hones.1, ?_⟩
    intro k hk
    have hk1 : k ≠ f.name := by
      intro he; exact hk (by simp [he])
    have hk2 : k ∉ rest.map (fun g => g.name) := by
      intro hmem; exact hk (by simp only [List.map_cons, List.mem_cons]; exact Or.inr hmem)
    exact (hall k hk2).trans (hones.2 k hk1)

theorem fixPrimaryGo_invariant (rand : Nat → Nat) (hr : ∀ n, rand n ≤ n)
    (fields : List FieldDef) (obj obj' : Value)
    (h : fixPrimaryGo rand obj fields = Except.ok obj') :
    ∀ fd, fd ∈ fields →
      ∀ x xs, getattrV obj' fd.name = Value.vlist (x :: xs) →
        (rand ((x :: xs).length - 1) < (x :: xs).length ∧
          (∀ j (hj : j < (x :: xs).length),
            getattrV ((x :: xs).get ⟨j, hj⟩) "primary" =
              Value.vbool (decide (j = rand ((x :: xs).length - 1))))) ∨
        hasattrV x "primary" = Bool.false := by
  induction fields generalizing obj with
  | nil => intro fd hfd; exact absurd hfd (by simp)
  | cons f rest ih =>
    intro fd hfd x xs hget
    rcases fixPrimaryGo_cons rand obj obj' f rest h with ⟨obj1, h1, hcase⟩
    by_cases hdup : ∃ g, g ∈ rest ∧ g.name = fd.name
    · rcases hdup with ⟨g, hg, hgname⟩
      exact ih obj1 h1 g hg x xs (by rw [hgname]; exact hget)
    · rcases List.mem_cons.mp hfd with hfdf | hfd'
      · subst hfdf
        have hnot : fd.name ∉ rest.map (fun g => g.name) := by
          intro hmem
          rcases List.mem_map.mp hmem with ⟨g, hg, hgname⟩
          exact hdup ⟨g, hg, hgname⟩
        have hsurv := (fixPrimaryGo_untouched rand rest obj1 obj' h1).2 fd.name hnot
        rcases hcase with ⟨heq, hskip⟩ | ⟨x0, xs0, items', hv, hp, hsp, heq⟩
        · subst heq
          rw [hget] at hsurv
          exact Or.inr (hskip x xs hsurv.symm)
        · rcases getattrV_vobj_of_ne obj fd.name (by rw [hv]; exact fun hc => by cases hc)
            with ⟨m, flds, hobj⟩
          have hset : getattrV obj1 fd.name = Value.vlist items' := by
            rw [heq]
            exact getattrV_setattrV_vobj_self obj m flds fd.name _ hobj
          rw [hget, hset] at hsurv
          cases hsurv
          rcases setPrimaryFlags_spec _ _ _ _ hsp with ⟨hlen, hall⟩
          left
          have hlenc : (x :: xs).length = xs.length + 1 := List.length_cons x xs
          have hlen1 : (x :: xs).length = (x0 :: xs0).length := by
            rw [← hlen]
          constructor
          · have h1b := hr ((x :: xs).length - 1)
            omega
          · intro j hj
            have := hall j hj
            rw [this]
            congr 1
            exact decide_eq_decide.mpr (by rw [Nat.zero_add, ← hlen1])
      · exact ih obj1 h1 fd hfd' x xs hget

theorem fixPrimaryAttributes_invariant (env : Env) (rand : Nat → Nat)
    (hr : ∀ n, rand n ≤ n) (mid obj' : Value)
    (h : fixPrimaryAttributes rand env mid = Except.ok obj') :
    PrimaryInvariant env rand obj' := by
  cases mid with
  | vobj m flds =>
    cases hfm : findModel env m with
    | none =>
      simp only [fixPrimaryAttributes, hfm] at h
      cases h
      intro m' flds' md' hobj' hfm'
      cases hobj'
      rw [hfm] at hfm'
      cases hfm'
    | some md =>
      simp only [fixPrimaryAttributes, hfm] at h
      intro m' flds' md' hobj' hfm' fd hfd x xs hget hp
      have hmodel : modelOfV obj' = some m :=
        (fixPrimaryGo_untouched rand md.fields _ obj' h).1
      have hm' : m' = m := by
        rw [hobj'] at hmodel
        cases hmodel
        rfl
      subst hm'
      rw [hfm] at hfm'
      cases hfm'
      rcases fixPrimaryGo_invariant rand hr md.fields _ obj' h fd hfd x xs hget with
        hgood | hbad
      · exact hgood
      · rw [hp] at hbad
        cases hbad
  | vnull =>
    simp only [fixPrimaryAttributes] at h
    cases h
    intro m' flds' md' hobj'
    cases hobj'
  | vstr s =>
    simp only [fixPrimaryAttributes] at h
    cases h
    intro m' flds' md' hobj'
    cases hobj'
  | vint n =>
    simp only [fixPrimaryAttributes] at h
    cases h
    intro m' flds' md' hobj'
    cases hobj'
  | vbool b =>
    simp only [fixPrimaryAttributes] at h
    cases h
    intro m' flds' md' hobj'
    cases hobj'
  | vlist l =>
    simp only [fixPrimaryAttributes] at h
    cases h
    intro m' flds' md' hobj'
    cases hobj'

/-- C1: after `fill_with_random_values` (whose last act is the
`fix_primary_attributes` post-pass), every declared attribute of the
synthesized object whose value is a non-empty collection whose elements
expose a `primary` flag has exactly one element with `primary = True` — the
one at the pseudo-randomly drawn index `rand (len - 1)`, necessarily the
sole element when the collection has length one — and every other element
has `primary = False`. -/
theorem claim1_primary_uniqueness (env : Env) (gen : String → Option Value)
    (rand : Nat → Nat) (urns : List String) (obj obj' : Value)
    (hr : ∀ n, rand n ≤ n)
    (h : fillWithRandomValues env gen rand obj urns = Except.ok obj') :
    PrimaryInvariant env rand obj' := by
  simp only [fillWithRandomValues] at h
  cases hg : fillGo env gen obj urns with
  | error e => rw [hg] at h; cases h
  | ok mid =>
    rw [hg] at h
    exact fixPrimaryAttributes_invariant env rand hr mid obj' h

/-- Witness for C1: filling the fresh demo user produces a two-element
`emails` collection in which exactly the drawn element is primary. -/
theorem claim1_primary_uniqueness_witness :
    fillWithRandomValues demoEnv wGen wRand freshUser ["userName", "emails"] =
      Except.ok wOut ∧
    (∀ n, wRand n ≤ n) ∧ PrimaryInvariant demoEnv wRand wOut := by
  refine ⟨rfl, fun n => Nat.le_refl n, ?_⟩
  exact claim1_primary_uniqueness demoEnv wGen wRand ["userName", "emails"]
    freshUser wOut (fun n => Nat.le_refl n) rfl

/-! ## C4: set_value_by_urn on an unknown final segment -/

theorem splitChar_length (c : Char) (l : List Char) :
    (splitChar c l).length = l.count c + 1 := by
  induction l with
  | nil => rfl
  | cons x xs ih =>
    cases hx : x == c with
    | true =>
      have hstep : splitChar c (x :: xs) = [] :: splitChar c xs := by
        simp [splitChar, hx]
      rw [hstep, List.length_cons, ih, List.count_cons]
      simp [hx]
    | false =>
      cases hr : splitChar c xs with
      | nil => rw [hr] at ih; simp at ih
      | cons h t =>
        have hstep : splitChar c (x :: xs) = (x :: h) :: t := by
          simp [splitChar, hx, hr]
        rw [hstep, List.length_cons, List.count_cons]
        rw [hr] at ih
        simp only [List.length_cons] at ih
        simp only [hx, Bool.false_eq_true, if_false]
        omega

theorem strContains_of_split_pair (urn p q : String)
    (h : strSplitOn urn '.' = [p, q]) : strContainsCh urn '.' = Bool.true := by
  have hlen : (splitChar '.' urn.data).length = 2 := by
    have : (strSplitOn urn '.').length = 2 := by rw [h]; rfl
    simpa [strSplitOn] using this
  rw [splitChar_length] at hlen
  have hcount : urn.data.count '.' = 1 := by omega
  have hmem : ('.' : Char) ∈ urn.data := by
    have : 0 < urn.data.count '.' := by omega
    exact List.count_pos_iff.mp this
  simpa [strContainsCh] using hmem

theorem setValueByUrn_no_colon (env : Env) (obj : Value) (urn : String) (v : Value)
    (h : strContainsCh urn ':' = Bool.false) :
    setValueByUrn env obj urn v = setPlain env obj urn v := by
  simp only [setValueByUrn, setValueByUrnF, h, Bool.false_eq_true, if_false]

theorem getValueByUrn_no_colon (env : Env) (obj : Value) (urn : String)
    (h : strContainsCh urn ':' = Bool.false) :
    getValueByUrn env obj urn = Except.ok (getPlain env obj urn) := by
  simp only [getValueByUrn, getValueByUrnF, h, Bool.false_eq_true, if_false]

/-- C4 as amended: for an unqualified path, when the final segment names a
field unknown to the reached target model the two branches of
`set_value_by_urn` differ — an *undotted* path is a silent no-op (the
`if field_name:` guard at urns.py line 256), but a *dotted* path whose
intermediate hop reaches a sub-object and whose final segment is unknown
raises `TypeError` (urns.py lines 250-252 call `setattr(obj, None, value)`
with no guard), as the counterexample shows on a concrete instance. -/
theorem claim4_set_unknown_field :
    (∀ (env : Env) (obj : Value) (urn : String) (v : Value),
      strContainsCh urn ':' = Bool.false → strContainsCh urn '.' = Bool.false →
      findFieldNameV env obj urn = none →
      setValueByUrn env obj urn v = Except.ok obj) ∧
    (∀ (env : Env) (obj : Value) (urn p q : String) (v : Value) (f m : String)
      (flds : List (String × Value)),
      strContainsCh urn ':' = Bool.false →
      strSplitOn urn '.' = [p, q] →
      findFieldNameV env obj p = some f →
      getattrV obj f = Value.vobj m flds →
      findFieldNameV env (Value.vobj m flds) q = none →
      setValueByUrn env obj urn v =
        Except.error "TypeError: attribute name must be string") := by
  constructor
  · intro env obj urn v hc hd hf
    rw [setValueByUrn_no_colon env obj urn v hc]
    simp only [setPlain, hd, Bool.false_eq_true, if_false, hf]
  · intro env obj urn p q v f m flds hc hsplit hf hget hq
    rw [setValueByUrn_no_colon env obj urn v hc]
    simp only [setPlain, strContains_of_split_pair urn p q hsplit, if_true, hsplit]
    simp only [setDotted, hf, hget, isVNull, isVList, Bool.false_eq_true, if_false, hq]
    rfl

/-- Witness for C4: a no-op on an unknown simple attribute, and a raised
`TypeError` on a dotted path whose final segment is unknown. -/
theorem claim4_set_unknown_field_witness :
    setValueByUrn demoEnv freshUser "totallyNonExistent" (Value.vstr "x") =
      Except.ok freshUser ∧
    setValueByUrn demoEnv (setattrV freshUser "name" (defaultInstance nameMd))
      "name.unknownAttr" (Value.vstr "x") =
      Except.error "TypeError: attribute name must be string" := by
  constructor
  · exact claim4_set_unknown_field.1 demoEnv freshUser "totallyNonExistent"
      (Value.vstr "x") (by decide) (by decide) (by decide)
  · exact claim4_set_unknown_field.2 demoEnv
      (setattrV freshUser "name" (defaultInstance nameMd)) "name.unknownAttr"
      "name" "unknownAttr" (Value.vstr "x") "name" "Name"
      [("formatted", Value.vnull), ("family_name", Value.vnull), ("given_name", Value.vnull)]
      (by decide) (by decide) (by decide) rfl (by decide)

/-- C4 counterexample: on a concrete instance, setting `name.unknownAttr` —
a dotted path whose intermediate segment resolves while the final segment is
unknown to `Name` — raises `TypeError` instead of being a silent no-op (the
source even creates the intermediate `Name()` before raising). -/
theorem claim4_counterexample :
    setValueByUrn demoEnv freshUser "name.unknownAttr" (Value.vstr "x") =
      Except.error "TypeError: attribute name must be string" ∧
    findFieldNameV demoEnv freshUser "name" = some "name" ∧
    findFieldNameM nameMd "unknownAttr" = none := by
  refine ⟨rfl, by decide, by decide⟩

/-! ## C3: supporting lemmas for the set / get round trip -/

theorem findFieldNameV_some_vobj (env : Env) (obj : Value) (a f : String)
    (h : findFieldNameV env obj a = some f) : ∃ m flds, obj = Value.vobj m flds := by
  cases obj with
  | vobj m flds => exact ⟨m, flds, rfl⟩
  | vnull => simp [findFieldNameV] at h
  | vstr s => simp [findFieldNameV] at h
  | vint n => simp [findFieldNameV] at h
  | vbool b => simp [findFieldNameV] at h
  | vlist l => simp [findFieldNameV] at h

theorem modelOfV_some_vobj (obj : Value) (m : String) (h : modelOfV obj = some m) :
    ∃ flds, obj = Value.vobj m flds := by
  cases obj with
  | vobj m' flds =>
    simp only [modelOfV, Option.some.injEq] at h
    exact ⟨flds, by rw [h]⟩
  | vnull => simp [modelOfV] at h
  | vstr s => simp [modelOfV] at h
  | vint n => simp [modelOfV] at h
  | vbool b => simp [modelOfV] at h
  | vlist l => simp [modelOfV] at h

theorem findFieldNameV_model_only (env : Env) (m : String)
    (flds flds2 : List (String × Value)) (a : String) :
    findFieldNameV env (Value.vobj m flds) a = findFieldNameV env (Value.vobj m flds2) a := rfl

theorem fieldMultiValuedV_model_only (env : Env) (m : String)
    (flds flds2 : List (String × Value)) (f : String) :
    fieldMultiValuedV env (Value.vobj m flds) f =
      fieldMultiValuedV env (Value.vobj m flds2) f := rfl

theorem isVNull_false_of_vobj (obj : Value) (m : String) (h : modelOfV obj = some m) :
    isVNull obj = Bool.false := by
  rcases modelOfV_some_vobj obj m h with ⟨flds, hobj⟩
  rw [hobj]
  rfl

theorem isVList_false_of_vobj (obj : Value) (m : String) (h : modelOfV obj = some m) :
    isVList obj = Bool.false := by
  rcases modelOfV_some_vobj obj m h with ⟨flds, hobj⟩
  rw [hobj]
  rfl

theorem extLoopSet_skip (l rest : List (String × String)) (urn : String)
    (h : ∀ e, e ∈ l → urn ≠ e.1 ∧ strStarts urn e.1 = Bool.false) :
    extLoopSet (l ++ rest) urn = extLoopSet rest urn := by
  induction l with
  | nil => rfl
  | cons e tail ih =>
    rcases h e (List.mem_cons_self _ _) with ⟨hne, hst⟩
    have hbeq : (urn == e.1) = Bool.false := by
      simp [hne]
    simp only [List.cons_append, extLoopSet, hbeq, Bool.false_eq_true, if_false, hst]
    exact ih (fun e' he' => h e' (List.mem_cons_of_mem _ he'))

theorem extLoopGet_skip (l rest : List (String × String)) (urn : String)
    (h : ∀ e, e ∈ l → urn ≠ e.1 ∧ strStarts urn e.1 = Bool.false) :
    extLoopGet (l ++ rest) urn = extLoopGet rest urn := by
  induction l with
  | nil => rfl
  | cons e tail ih =>
    rcases h e (List.mem_cons_self _ _) with ⟨hne, hst⟩
    have hbeq : (urn == e.1) = Bool.false := by
      simp [hne]
    simp only [List.cons_append, extLoopGet, hbeq, Bool.false_eq_true, if_false, hst]
    exact ih (fun e' he' => h e' (List.mem_cons_of_mem _ he'))

theorem extLoopGet_fall (l : List (String × String)) (urn : String)
    (h : ∀ e, e ∈ l → urn ≠ e.1 ∧ strStarts urn e.1 = Bool.false) :
    extLoopGet l urn = ExtOutcome.fall urn := by
  have := extLoopGet_skip l [] urn h
  rw [List.append_nil] at this
  rw [this]
  rfl

theorem strDropPre_length_le (s p : String) :
    (strDropPre s p).data.length ≤ s.data.length := by
  cases h : strStarts s p with
  | true =>
    simp only [strDropPre, h, if_true]
    rw [List.length_drop]
    omega
  | false =>
    simp only [strDropPre, h, Bool.false_eq_true, if_false]
    exact Nat.le_refl _

theorem strDropPre_length_lt (s p : String) (hst : strStarts s p = Bool.true)
    (hp : 0 < p.data.length) : (strDropPre s p).data.length < s.data.length := by
  have hle : p.data.length ≤ s.data.length := by
    have := List.IsPrefix.length_le (List.isPrefixOf_iff_prefix.mp hst)
    exact this
  simp only [strDropPre, hst, if_true]
  rw [List.length_drop]
  omega

theorem stripped_length_lt (urn es : String) (hst : strStarts urn es = Bool.true)
    (hp : 0 < es.data.length) :
    (strDropPre (strDropPre urn es) ":").data.length < urn.data.length :=
  (strDropPre_length_le (strDropPre urn es) ":").trans_lt
    (strDropPre_length_lt urn es hst hp)

/-- Round trip along the dotted branch: on a safe dotted traversal, the set
walk succeeds, the object keeps its class, and the get walk reads the stored
value back. -/
theorem dottedSafe_roundtrip (env : Env) (obj : Value) (parts : List String)
    (v : Value) (h : DottedSafe env obj parts v) :
    ∃ obj', setDotted env obj parts v = Except.ok obj' ∧
      modelOfV obj' = modelOfV obj ∧ getDotted env obj' parts = v := by
  induction h with
  | last obj fname f v hfind =>
    rcases findFieldNameV_some_vobj env obj fname f hfind with ⟨m, flds, hobj⟩
    subst hobj
    refine ⟨setattrV (Value.vobj m flds) f v, ?_, ?_, ?_⟩
    · simp only [setDotted, hfind]
    · exact modelOfV_setattrV_any _ _ _
    · have hfind' : findFieldNameV env (setattrV (Value.vobj m flds) f v) fname = some f :=
        hfind
      simp only [getDotted, hfind']
      exact getattrV_setattrV_self m flds f v
  | stepObj obj p q rest f m flds v hfind hget hsub ih =>
    rcases ih with ⟨sub', hset', hmodel', hget'⟩
    rcases findFieldNameV_some_vobj env obj p f hfind with ⟨mo, fldso, hobj⟩
    subst hobj
    refine ⟨setattrV (Value.vobj mo fldso) f sub', ?_, ?_, ?_⟩
    · simp only [setDotted, hfind, hget, isVNull, isVList, Bool.false_eq_true, if_false,
        hset', Except.map]
    · exact modelOfV_setattrV_any _ _ _
    · have hfind' : findFieldNameV env (setattrV (Value.vobj mo fldso) f sub') p = some f :=
        hfind
      have hgetr : getattrV (setattrV (Value.vobj mo fldso) f sub') f = sub' :=
        getattrV_setattrV_self mo fldso f sub'
      have hsubm : modelOfV sub' = some m := by
        rw [hmodel']
        rfl
      have hnn : isVNull sub' = Bool.false := isVNull_false_of_vobj sub' m hsubm
      simp only [getDotted, hfind', hgetr, hnn, Bool.false_eq_true, if_false]
      exact hget'
  | stepNull obj p q rest f rt m flds v hfind hget hrt hdef hsub ih =>
    rcases ih with ⟨sub', hset', hmodel', hget'⟩
    rcases findFieldNameV_some_vobj env obj p f hfind with ⟨mo, fldso, hobj⟩
    subst hobj
    refine ⟨setattrV (Value.vobj mo fldso) f sub', ?_, ?_, ?_⟩
    · simp only [setDotted, hfind, hget, isVNull, if_true, hrt, hdef, hset', Except.map]
    · exact modelOfV_setattrV_any _ _ _
    · have hfind' : findFieldNameV env (setattrV (Value.vobj mo fldso) f sub') p = some f :=
        hfind
      have hgetr : getattrV (setattrV (Value.vobj mo fldso) f sub') f = sub' :=
        getattrV_setattrV_self mo fldso f sub'
      have hsubm : modelOfV sub' = some m := by
        rw [hmodel']
        rfl
      have hnn : isVNull sub' = Bool.false := isVNull_false_of_vobj sub' m hsubm
      simp only [getDotted, hfind', hgetr, hnn, Bool.false_eq_true, if_false]
      exact hget'

/-- Round trip for a colon-free path. -/
theorem plainSafe_roundtrip (env : Env) (obj : Value) (urn : String) (v : Value)
    (h : PlainSafe env obj urn v) :
    ∃ obj', setPlain env obj urn v = Except.ok obj' ∧
      modelOfV obj' = modelOfV obj ∧ getPlain env obj' urn = v := by
  induction h with
  | simple f v hdot hfind hmv =>
    rcases findFieldNameV_some_vobj env obj urn f hfind with ⟨m, flds, hobj⟩
    subst hobj
    refine ⟨setattrV (Value.vobj m flds) f v, ?_, ?_, ?_⟩
    · simp only [setPlain, hdot, Bool.false_eq_true, if_false, hfind, hmv,
        Bool.false_and]
    · exact modelOfV_setattrV_any _ _ _
    · have hfind' : findFieldNameV env (setattrV (Value.vobj m flds) f v) urn = some f :=
        hfind
      simp only [getPlain, hdot, Bool.false_eq_true, if_false, hfind']
      exact getattrV_setattrV_self m flds f v
  | dotted v hdot hsafe =>
    rcases dottedSafe_roundtrip env obj (strSplitOn urn '.') v hsafe with
      ⟨obj', hset, hmodel, hget⟩
    refine ⟨obj', ?_, hmodel, ?_⟩
    · simp only [setPlain, hdot, if_true]
      exact hset
    · simp only [getPlain, hdot, if_true]
      exact hget

/-! ### Unfolding lemmas for the schema-qualified branches -/

theorem setF_no_colon (env : Env) (k : Nat) (obj : Value) (urn : String) (v : Value)
    (hc : strContainsCh urn ':' = Bool.false) :
    setValueByUrnF env (k + 1) obj urn v = setPlain env obj urn v := by
  simp only [setValueByUrnF, hc, Bool.false_eq_true, if_false]

theorem getF_no_colon (env : Env) (k : Nat) (obj : Value) (urn : String)
    (hc : strContainsCh urn ':' = Bool.false) :
    getValueByUrnF env (k + 1) obj urn = Except.ok (getPlain env obj urn) := by
  simp only [getValueByUrnF, hc, Bool.false_eq_true, if_false]

theorem setF_colon_own (env : Env) (k : Nat) (m : String)
    (flds : List (String × Value)) (md : ModelDef) (mdSchema urn : String) (v : Value)
    (hc : strContainsCh urn ':' = Bool.true) (hfm : findModel env m = some md)
    (hschema : md.schemaUrn = some mdSchema)
    (hkindb : (md.kind == MKind.resource || md.kind == MKind.extension) = Bool.true)
    (hstarts : strStarts urn mdSchema = Bool.true) :
    setValueByUrnF env (k + 1) (Value.vobj m flds) urn v =
      setPlain env (Value.vobj m flds) (strDropPre (strDropPre urn mdSchema) ":") v := by
  simp [setValueByUrnF, hc, hfm, hschema, hkindb, hstarts]

theorem getF_colon_own (env : Env) (k : Nat) (m : String)
    (flds : List (String × Value)) (md : ModelDef) (mdSchema urn : String)
    (hc : strContainsCh urn ':' = Bool.true) (hfm : findModel env m = some md)
    (hschema : md.schemaUrn = some mdSchema)
    (hkindb : (md.kind == MKind.resource || md.kind == MKind.extension) = Bool.true)
    (hstarts : strStarts urn mdSchema = Bool.true) :
    getValueByUrnF env (k + 1) (Value.vobj m flds) urn =
      Except.ok (getPlain env (Value.vobj m flds)
        (strDropPre (strDropPre urn mdSchema) ":")) := by
  simp [getValueByUrnF, hc, hfm, hschema, hkindb, hstarts]

theorem setF_colon_res (env : Env) (k : Nat) (m : String)
    (flds : List (String × Value)) (md : ModelDef) (mdSchema urn : String) (v : Value)
    (hc : strContainsCh urn ':' = Bool.true) (hfm : findModel env m = some md)
    (hschema : md.schemaUrn = some mdSchema) (hkind : md.kind = MKind.resource)
    (hstarts : strStarts urn mdSchema = Bool.false) :
    setValueByUrnF env (k + 1) (Value.vobj m flds) urn v =
      (match extLoopSet md.extensions urn with
       | ExtOutcomeSet.fall u => setPlain env (Value.vobj m flds) u v
       | ExtOutcomeSet.assign extName =>
         Except.ok (setattrV (Value.vobj m flds) extName v)
       | ExtOutcomeSet.enter extName subUrn =>
         let cur := getattrV (Value.vobj m flds) extName
         if isVNull cur then
           match findModel env extName with
           | none => Except.error "unknown model class"
           | some emd =>
             (setValueByUrnF env k (defaultInstance emd) subUrn v).map
               (fun s => setattrV (Value.vobj m flds) extName s)
         else
           (setValueByUrnF env k cur subUrn v).map
             (fun s => setattrV (Value.vobj m flds) extName s)) := by
  simp [setValueByUrnF, hc, hfm, hschema, hkind, hstarts]

theorem getF_colon_res (env : Env) (k : Nat) (m : String)
    (flds : List (String × Value)) (md : ModelDef) (mdSchema urn : String)
    (hc : strContainsCh urn ':' = Bool.true) (hfm : findModel env m = some md)
    (hschema : md.schemaUrn = some mdSchema) (hkind : md.kind = MKind.resource)
    (hstarts : strStarts urn mdSchema = Bool.false) :
    getValueByUrnF env (k + 1) (Value.vobj m flds) urn =
      (match extLoopGet md.extensions urn with
       | ExtOutcome.fall u => Except.ok (getPlain env (Value.vobj m flds) u)
       | ExtOutcome.enter extName subUrn =>
         let extObj := getattrV (Value.vobj m flds) extName
         if isVNull extObj then Except.ok Value.vnull
         else getValueByUrnF env k extObj subUrn) := by
  simp [getValueByUrnF, hc, hfm, hschema, hkind, hstarts]

/-- Round trip for every safe path, at any sufficient recursion budget. -/
theorem safePath_roundtrip_fuel (env : Env) (obj : Value) (urn : String) (v : Value)
    (h : SafePath env obj urn v) :
    ∀ fuel, urn.data.length < fuel →
    ∃ obj', setValueByUrnF env fuel obj urn v = Except.ok obj' ∧
      modelOfV obj' = modelOfV obj ∧
      getValueByUrnF env fuel obj' urn = Except.ok v := by
  induction h with
  | plain obj urn v hc hp =>
    intro fuel hfuel
    cases fuel with
    | zero => exact absurd hfuel (Nat.not_lt_zero _)
    | succ k =>
      rcases plainSafe_roundtrip env obj urn v hp with ⟨obj', hset, hmodel, hget⟩
      refine ⟨obj', ?_, hmodel, ?_⟩
      · rw [setF_no_colon env k obj urn v hc]
        exact hset
      · rw [getF_no_colon env k obj' urn hc, hget]
  | ownSchema obj m flds md mdSchema urn v hc hobj hfm hschema hkinds hstarts hc2 hp =>
    intro fuel hfuel
    cases fuel with
    | zero => exact absurd hfuel (Nat.not_lt_zero _)
    | succ k =>
      subst hobj
      have hkindb :
          (md.kind == MKind.resource || md.kind == MKind.extension) = Bool.true := by
        rcases hkinds with hk | hk
        · rw [hk]; rfl
        · rw [hk]; rfl
      rcases plainSafe_roundtrip env (Value.vobj m flds)
        (strDropPre (strDropPre urn mdSchema) ":") v hp with ⟨obj', hset, hmodel, hget⟩
      have hmodel' : modelOfV obj' = some m := by rw [hmodel]; rfl
      rcases modelOfV_some_vobj obj' m hmodel' with ⟨flds', hobj'⟩
      refine ⟨obj', ?_, hmodel, ?_⟩
      · rw [setF_colon_own env k m flds md mdSchema urn v hc hfm hschema hkindb hstarts]
        exact hset
      · rw [hobj']
        rw [getF_colon_own env k m flds' md mdSchema urn hc hfm hschema hkindb hstarts]
        rw [hobj'] at hget
        rw [hget]
  | extAssign obj m flds md mdSchema pre es en post urn v hc hobj hfm hschema hkind
      hstarts hexts hpre heq hpost hdot hffn =>
    intro fuel hfuel
    cases fuel with
    | zero => exact absurd hfuel (Nat.not_lt_zero _)
    | succ k =>
      subst hobj
      subst heq
      have hloopS : extLoopSet md.extensions urn = ExtOutcomeSet.assign en := by
        rw [hexts, extLoopSet_skip pre _ urn hpre]
        simp [extLoopSet]
      have hloopG : extLoopGet md.extensions urn = ExtOutcome.fall en := by
        rw [hexts, extLoopGet_skip pre _ urn hpre]
        have hself : (urn == urn) = Bool.true := by simp
        simp only [extLoopGet, hself, if_true]
        exact extLoopGet_fall post en hpost
      refine ⟨setattrV (Value.vobj m flds) en v, ?_, modelOfV_setattrV_any _ _ _, ?_⟩
      · rw [setF_colon_res env k m flds md mdSchema urn v hc hfm hschema hkind hstarts,
          hloopS]
      · show getValueByUrnF env (k + 1) (Value.vobj m (updateStr flds en v)) urn =
          Except.ok v
        rw [getF_colon_res env k m (updateStr flds en v) md mdSchema urn hc hfm hschema
          hkind hstarts, hloopG]
        simp only [getPlain, hdot, Bool.false_eq_true, if_false]
        have hffn' : findFieldNameV env (Value.vobj m (updateStr flds en v)) en =
            some en := by
          show (findModel env m).bind (fun md2 => findFieldNameM md2 en) = some en
          rw [hfm]
          simpa using hffn
        rw [hffn']
        simp [getattrV, lookupStr_updateStr_self]
  | extEnter obj m flds md mdSchema pre es en post emd sub urn v hc hobj hfm hschema
      hkind hstarts hexts hpre hne hst hlen hfme hcur hsp ih =>
    intro fuel hfuel
    cases fuel with
    | zero => exact absurd hfuel (Nat.not_lt_zero _)
    | succ k =>
      subst hobj
      have hbne : (urn == es) = Bool.false := by simp [hne]
      have hloopS : extLoopSet md.extensions urn =
          ExtOutcomeSet.enter en (strDropPre (strDropPre urn es) ":") := by
        rw [hexts, extLoopSet_skip pre _ urn hpre]
        simp only [extLoopSet, hbne, Bool.false_eq_true, if_false, hst, if_true]
      have hloopG : extLoopGet md.extensions urn =
          ExtOutcome.enter en (strDropPre (strDropPre urn es) ":") := by
        rw [hexts, extLoopGet_skip pre _ urn hpre]
        simp only [extLoopGet, hbne, Bool.false_eq_true, if_false, hst, if_true]
      have hfuel2 : (strDropPre (strDropPre urn es) ":").data.length < k := by
        have := stripped_length_lt urn es hst hlen
        omega
      rcases ih k hfuel2 with ⟨sub', hset', hmodel', hget'⟩
      have hsubm : modelOfV sub = some emd.name := by
        rcases hcur with ⟨h1, h2⟩ | ⟨h1, h2⟩
        · rw [h2]; rfl
        · exact h2
      have hsub'm : modelOfV sub' = some emd.name := by rw [hmodel']; exact hsubm
      refine ⟨setattrV (Value.vobj m flds) en sub', ?_, modelOfV_setattrV_any _ _ _, ?_⟩
      · rw [setF_colon_res env k m flds md mdSchema urn v hc hfm hschema hkind hstarts,
          hloopS]
        rcases hcur with ⟨h1, h2⟩ | ⟨h1, h2⟩
        · simp only [h1, isVNull, if_true, hfme]
          rw [← h2, hset']
          rfl
        · have hnn : isVNull sub = Bool.false := isVNull_false_of_vobj sub emd.name hsubm
          simp only [h1, hnn, Bool.false_eq_true, if_false]
          rw [hset']
          rfl
      · show getValueByUrnF env (k + 1) (Value.vobj m (updateStr flds en sub')) urn =
          Except.ok v
        rw [getF_colon_res env k m (updateStr flds en sub') md mdSchema urn hc hfm
          hschema hkind hstarts, hloopG]
        have hext : getattrV (Value.vobj m (updateStr flds en sub')) en = sub' := by
          simp [getattrV, lookupStr_updateStr_self]
        have hnn' : isVNull sub' = Bool.false :=
          isVNull_false_of_vobj sub' emd.name hsub'm
        simp only [hext, hnn', Bool.false_eq_true, if_false]
        exact hget'

/-- C3 as amended: for every path that is resolvable on the live instance
with a single-valued target and whose traversal — after URN-prefix handling —
meets only single-valued sub-object (or unset, on-demand-created) hops, never
a populated multi-valued collection (the `SafePath` hypothesis), setting a
value and reading it back through the same path yields exactly that value.
The original unrestricted claim fails on multi-valued intermediate hops; see
the counterexample. -/
theorem claim3_set_get_roundtrip (env : Env) (obj : Value) (urn : String) (v : Value)
    (h : SafePath env obj urn v) :
    ∃ obj', setValueByUrn env obj urn v = Except.ok obj' ∧
      getValueByUrn env obj' urn = Except.ok v := by
  rcases safePath_roundtrip_fuel env obj urn v h (urn.data.length + 1)
    (Nat.lt_succ_self _) with ⟨obj', hset, _, hget⟩
  exact ⟨obj', hset, hget⟩

/-- Witness for C3: the dotted path `name.familyName` on a fresh user — whose
unset `name` intermediate is created on demand — round-trips the value. -/
theorem claim3_set_get_roundtrip_witness :
    SafePath demoEnv freshUser "name.familyName" (Value.vstr "Doe") ∧
    ∃ obj', setValueByUrn demoEnv freshUser "name.familyName" (Value.vstr "Doe") =
        Except.ok obj' ∧
      getValueByUrn demoEnv obj' "name.familyName" = Except.ok (Value.vstr "Doe") := by
  have hlast : DottedSafe demoEnv
      (Value.vobj "Name"
        [("formatted", Value.vnull), ("family_name", Value.vnull),
         ("given_name", Value.vnull)])
      ["familyName"] (Value.vstr "Doe") :=
    DottedSafe.last _ "familyName" "family_name" _ (by decide)
  have hd : DottedSafe demoEnv freshUser ["name", "familyName"] (Value.vstr "Doe") :=
    DottedSafe.stepNull freshUser "name" "familyName" [] "name"
      (RootType.complexOf "Name") "Name"
      [("formatted", Value.vnull), ("family_name", Value.vnull),
       ("given_name", Value.vnull)]
      (Value.vstr "Doe") (by decide) rfl (by decide) rfl hlast
  have hp : PlainSafe demoEnv freshUser "name.familyName" (Value.vstr "Doe") := by
    refine PlainSafe.dotted freshUser "name.familyName" (Value.vstr "Doe")
      (by decide) ?_
    rw [show strSplitOn "name.familyName" '.' = ["name", "familyName"] from by decide]
    exact hd
  have hsp : SafePath demoEnv freshUser "name.familyName" (Value.vstr "Doe") :=
    SafePath.plain freshUser "name.familyName" (Value.vstr "Doe") (by decide) hp
  exact ⟨hsp, claim3_set_get_roundtrip demoEnv freshUser "name.familyName"
    (Value.vstr "Doe") hsp⟩

/-- C3 counterexample: the path `emails.value` is resolvable on the `User`
schema with a single-valued leaf target, yet on an instance whose `emails`
collection is populated, `set_value_by_urn` is a silent no-op (urns.py lines
245-247) and the subsequent get answers `None`, not the written value — the
round trip fails on paths traversing a multi-valued collection. -/
theorem claim3_counterexample :
    getTargetModelByUrn demoEnv (TypeRef.tmodel "User") "emails.value" =
      some (TypeRef.tmodel "Email", some "value") ∧
    ((findModel demoEnv "Email").bind (fun md => findFieldDef md "value")).map
        (fun f => f.multiValued) = some Bool.false ∧
    setValueByUrn demoEnv userWithEmail "emails.value" (Value.vstr "b") =
      Except.ok userWithEmail ∧
    getValueByUrn demoEnv userWithEmail "emails.value" = Except.ok Value.vnull ∧
    Value.vnull ≠ Value.vstr "b" := by
  refine ⟨by decide, by decide, rfl, rfl, ?_⟩
  intro hcon
  cases hcon

end ScimTester
